import Mathlib

/-!
# LeadHive backend — shallow embedding and verification

This file embeds the core of the LeadHive CRM backend (a role-based
lead-management service) in Lean: the append-only lead-assignment ledger,
the role-scoped lead listing, the single and bulk assignment operations,
the team-closure resolution used for manager visibility, and the dashboard
aggregation helpers.  The embedding follows the JavaScript controllers
(`leadController.js` second revision, `bulkLeadsController` in
`src/unnamed/part_008`, the `TeamManager`-based `dashboardController.js`
revision, and `teamController.js` in `src/unnamed/part_012`).

The relational store is modelled as a record of lists (`DB`); SQL
`MAX(id) ... GROUP BY lead_id` subqueries are modelled by `maxIdRow` /
`inLatestIds`; Sequelize `include` joins are modelled by explicit row
products; JavaScript `Map` / `Set` semantics are modelled by `jsMapGet` /
`jsSetDedup`.  HTTP responses are modelled by `Outcome` with the numeric
status codes used by `resSuccess` / `resError`.
-/

namespace LeadHive

/-- The three role values stored in the roles table. -/
inductive Role where
  | admin
  | manager
  | sales_rep
deriving DecidableEq, Repr

/-- A row of the users table (fields relevant to the core). -/
structure UserRec where
  id : Nat
  role : Role
  isActive : Bool
deriving DecidableEq, Repr

/-- A row of the leads table. -/
structure LeadRec where
  id : Nat
  first_name : Option String
  last_name : Option String
  company : Option String
  email : Option String
  phone : Option String
  country : Option String
  status_id : Nat
  source_id : Option Nat
  value_decimal : Int
  notes : Option String
  created_by : Nat
  updated_by : Option Nat
deriving DecidableEq, Repr

/-- A row of the `lead_assignments` ledger. -/
structure AssignmentRow where
  id : Nat
  lead_id : Nat
  assignee_id : Nat
  assigned_by : Nat
deriving DecidableEq, Repr

/-- A row of the `lead_statuses` reference table. -/
structure StatusRec where
  id : Nat
  value : String
  label : String
deriving DecidableEq, Repr

/-- A row of the `lead_sources` reference table. -/
structure SourceRec where
  id : Nat
  value : String
  label : String
deriving DecidableEq, Repr

/-- A row of the `team_managers` join table (manager_id, team_id). -/
structure TeamManagerRow where
  managerId : Nat
  teamId : Nat
deriving DecidableEq, Repr

/-- A row of the `team_members` join table (team_id, user_id). -/
structure TeamMemberRow where
  teamId : Nat
  userId : Nat
deriving DecidableEq, Repr

/-- The relational store: one list per table, plus auto-increment counters. -/
structure DB where
  users : List UserRec
  leads : List LeadRec
  assignments : List AssignmentRow
  statuses : List StatusRec
  sources : List SourceRec
  teamManagers : List TeamManagerRow
  teamMembers : List TeamMemberRow
  nextLeadId : Nat
  nextAssignmentId : Nat
deriving DecidableEq, Repr

/-- HTTP-style outcome: `resSuccess(res, data, code)` or `resError(res, msg, code)`. -/
inductive Outcome (α : Type) where
  | ok (code : Nat) (data : α)
  | err (code : Nat) (msg : String)
deriving DecidableEq, Repr

/-- Auto-increment well-formedness of the store: primary keys are unique and
below the corresponding counter. -/
def DB.Wf (db : DB) : Prop :=
  (db.assignments.map (fun a => a.id)).Nodup ∧
  (∀ r ∈ db.assignments, r.id < db.nextAssignmentId) ∧
  (db.leads.map (fun l => l.id)).Nodup ∧
  (∀ l ∈ db.leads, l.id < db.nextLeadId)

instance (db : DB) : Decidable db.Wf := by
  unfold DB.Wf
  infer_instance

/-- `User.findByPk`. -/
def findUser (db : DB) (uid : Nat) : Option UserRec :=
  db.users.find? (fun u => u.id == uid)

/-- `Lead.findByPk`. -/
def findLead (db : DB) (lid : Nat) : Option LeadRec :=
  db.leads.find? (fun l => l.id == lid)

/-- The ledger rows of one lead (`WHERE lead_id = L`). -/
def rowsOf (db : DB) (lid : Nat) : List AssignmentRow :=
  db.assignments.filter (fun a => a.lead_id == lid)

/-- One step of the SQL `MAX(id)` scan: keep whichever row has the larger id. -/
def maxIdStep (r : AssignmentRow) : Option AssignmentRow → Option AssignmentRow
  | none => some r
  | some b => if b.id < r.id then some r else some b

/-- SQL `MAX(id)` over a list of ledger rows: the row carrying the maximal id. -/
def maxIdRow : List AssignmentRow → Option AssignmentRow
  | [] => none
  | r :: rest => maxIdStep r (maxIdRow rest)

/-- The latest (max-id) ledger row of a lead; also the row returned by
`findOne({ where: { lead_id }, order: [["id","DESC"]] })`. -/
def latestRowOf (db : DB) (lid : Nat) : Option AssignmentRow :=
  maxIdRow (rowsOf db lid)

/-- `latestAssigneeOf(L)`: the assignee of the max-id ledger row of `L`. -/
def latestAssigneeOf (db : DB) (lid : Nat) : Option Nat :=
  (latestRowOf db lid).map (fun r => r.assignee_id)

/-- The max ledger-row id of a lead. -/
def latestIdOf (db : DB) (lid : Nat) : Option Nat :=
  (latestRowOf db lid).map (fun r => r.id)

/-- Membership in the `LATEST_ASSIGNMENT_IDS` subquery
`(SELECT MAX(id) FROM lead_assignments GROUP BY lead_id)`:
`i` is the maximal row id of some group present in the table. -/
def inLatestIds (db : DB) (i : Nat) : Bool :=
  db.assignments.any (fun r => latestIdOf db r.lead_id == some i)

/-- JavaScript `Map` built by `for (row) map.set(key, value)` followed by
`map.get(k)`: later sets overwrite earlier ones, so `get` returns the value
of the last pair carrying the key. -/
def jsMapGet {κ α : Type} [BEq κ] (m : List (κ × α)) (k : κ) : Option α :=
  ((m.filter (fun p => p.1 == k)).getLast?).map (fun p => p.2)

/-- JavaScript `Array.from(new Set(xs))`: de-duplicate keeping first
occurrences in iteration order. -/
def jsSetDedup (xs : List Nat) : List Nat :=
  xs.foldl (fun acc x => if acc.contains x then acc else acc ++ [x]) []

/-- `LeadAssignment.create({...})` with the auto-increment id. -/
def appendAssignment (db : DB) (leadId assigneeId assignedBy : Nat) :
    AssignmentRow × DB :=
  let row : AssignmentRow :=
    { id := db.nextAssignmentId, lead_id := leadId,
      assignee_id := assigneeId, assigned_by := assignedBy }
  (row, { db with assignments := db.assignments ++ [row],
                  nextAssignmentId := db.nextAssignmentId + 1 })

-- ==========================================================================
-- leadController.js (second revision)
-- ==========================================================================

/-- Request body of `createLead` (absent JSON fields are `none`). -/
structure CreateBody where
  first_name : Option String := none
  last_name : Option String := none
  company : Option String := none
  email : Option String := none
  phone : Option String := none
  country : Option String := none
  status_id : Option Nat := none
  source_id : Option Nat := none
  value_decimal : Option Int := none
  notes : Option String := none
deriving DecidableEq, Repr

/-- `createLead`: rejects a falsy `status_id` (absent or `0`) with 400,
creates the lead with `value_decimal ?? 0` and `created_by = actor`, then
appends the initial ledger row assigning the lead to the creator. -/
def createLead (db : DB) (actorId : Nat) (b : CreateBody) :
    Outcome LeadRec × DB :=
  match b.status_id with
  | none => (.err 400 "status_id is required", db)
  | some sid =>
    if sid = 0 then (.err 400 "status_id is required", db) else
    let lead : LeadRec :=
      { id := db.nextLeadId, first_name := b.first_name,
        last_name := b.last_name, company := b.company, email := b.email,
        phone := b.phone, country := b.country, status_id := sid,
        source_id := b.source_id, value_decimal := b.value_decimal.getD 0,
        notes := b.notes, created_by := actorId, updated_by := none }
    let db1 : DB := { db with leads := db.leads ++ [lead],
                              nextLeadId := db.nextLeadId + 1 }
    let db2 := (appendAssignment db1 lead.id actorId actorId).2
    (.ok 201 lead, db2)

/-- `assignLead`: lead must exist (404), assignee must exist (404), then one
ledger row is appended; no eligibility check is performed. -/
def assignLead (db : DB) (actorId leadId assigneeId : Nat) :
    Outcome AssignmentRow × DB :=
  match findLead db leadId with
  | none => (.err 404 "Lead not found", db)
  | some _ =>
    match findUser db assigneeId with
    | none => (.err 404 "Assignee not found", db)
    | some _ =>
      let (row, db1) := appendAssignment db leadId assigneeId actorId
      (.ok 201 row, db1)

/-- Request body of `updateLead`: `none` means the JSON field was absent
(`!== undefined` guards in the source). -/
structure UpdateBody where
  first_name : Option String := none
  last_name : Option String := none
  company : Option String := none
  email : Option String := none
  phone : Option String := none
  country : Option String := none
  status_id : Option Nat := none
  source_id : Option Nat := none
  value_decimal : Option Int := none
  notes : Option String := none
deriving DecidableEq, Repr

/-- The field-by-field partial update performed by `updateLead` before
`lead.save()`. -/
def applyUpdate (l : LeadRec) (b : UpdateBody) (actorId : Nat) : LeadRec :=
  { l with
    first_name := b.first_name.or l.first_name,
    last_name := b.last_name.or l.last_name,
    company := b.company.or l.company,
    email := b.email.or l.email,
    phone := b.phone.or l.phone,
    country := b.country.or l.country,
    status_id := b.status_id.getD l.status_id,
    source_id := b.source_id.or l.source_id,
    value_decimal := b.value_decimal.getD l.value_decimal,
    notes := b.notes.or l.notes,
    updated_by := some actorId }

/-- `updateLead` (second revision): 404 when the lead is missing; a
sales_rep is rejected with 403 unless the latest ledger row (max id) of the
lead names them as assignee; otherwise the partial update is saved. -/
def updateLead (db : DB) (actorId : Nat) (actorRole : Role) (leadId : Nat)
    (b : UpdateBody) : Outcome LeadRec × DB :=
  match findLead db leadId with
  | none => (.err 404 "Lead not found", db)
  | some lead =>
    let currentAssigneeId : Option Nat :=
      (latestRowOf db leadId).map (fun r => r.assignee_id)
    if actorRole = .sales_rep ∧ currentAssigneeId ≠ some actorId then
      (.err 403 "Sales rep can only update leads assigned to them", db)
    else
      let l' := applyUpdate lead b actorId
      (.ok 200 l',
        { db with leads := db.leads.map (fun x => if x.id == leadId then l' else x) })

-- ==========================================================================
-- getLeads (second revision): role scoping via the latest-assignment join
-- ==========================================================================

/-- Query-string filters of `getLeads` (ordering and pagination, applied
after the match set is fixed, only reorder and slice the rows and are not
modelled). -/
structure LeadsQuery where
  status_id : Option Nat := none
  source_id : Option Nat := none
  assignee_id : Option Nat := none
  search : Option String := none
deriving DecidableEq, Repr

/-- `LIKE '%pat%'` substring test on an optional column. -/
def likeContains (s : Option String) (pat : String) : Bool :=
  match s with
  | none => false
  | some s => s.toList.tails.any (fun t => pat.toList.isPrefixOf t)

/-- The `where` clause built by `getLeads` over plain lead columns. -/
def leadWhere (q : LeadsQuery) (l : LeadRec) : Bool :=
  (match q.status_id with | none => true | some s => l.status_id == s) &&
  (match q.source_id with | none => true | some s => l.source_id == some s) &&
  (match q.search with
   | none => true
   | some pat =>
     likeContains l.first_name pat || likeContains l.last_name pat ||
     likeContains l.email pat)

/-- The join condition of `buildLatestAssignmentInclude(assigneeId)`: a
ledger row joins a lead when it belongs to the lead, its id is in the
`LATEST_ASSIGNMENT_IDS` subquery, and (when filtering) it names the
requested assignee. -/
def latestIncludeOn (db : DB) (assigneeFilter : Option Nat) (l : LeadRec)
    (r : AssignmentRow) : Bool :=
  r.lead_id == l.id && inLatestIds db r.id &&
  (match assigneeFilter with | none => true | some a => r.assignee_id == a)

/-- Whether a lead survives the include: with `required: true` (an assignee
filter is present) some row must join; with `required: false` the join is
optional. -/
def passesLatestInclude (db : DB) (assigneeFilter : Option Nat) (l : LeadRec) :
    Bool :=
  match assigneeFilter with
  | none => true
  | some _ => db.assignments.any (latestIncludeOn db assigneeFilter l)

/-- The assignee filter `getLeads` hands to `buildLatestAssignmentInclude`:
sales reps are forced to themselves, other roles use the optional
query-string filter. -/
def getLeadsAssigneeFilter (role : Role) (userId : Nat) (q : LeadsQuery) :
    Option Nat :=
  if role = .sales_rep then some userId else q.assignee_id

/-- The match set of `Lead.findAndCountAll` in `getLeads`: leads passing the
column filters and the (possibly required) latest-assignment include. -/
def getLeadsMatch (db : DB) (role : Role) (userId : Nat) (q : LeadsQuery) :
    List LeadRec :=
  db.leads.filter (fun l =>
    leadWhere q l && passesLatestInclude db (getLeadsAssigneeFilter role userId q) l)

/-- The SQL row product of a `required`/optional include: each base row is
multiplied by its joining rows (or kept once with no partner when the join
is optional and empty, or dropped when required and empty). -/
def joinRows (leads : List LeadRec) (required : Bool)
    (onJoin : LeadRec → AssignmentRow → Bool) (rows : List AssignmentRow) :
    List (LeadRec × Option AssignmentRow) :=
  leads.flatMap (fun l =>
    let ms := rows.filter (onJoin l)
    if ms.isEmpty then (if required then [] else [(l, none)])
    else ms.map (fun r => (l, some r)))

/-- The `count` of `findAndCountAll` with `distinct: true, col: "id"` in
`getLeads`: a distinct count of the base primary key over the joined rows. -/
def getLeadsCount (db : DB) (role : Role) (userId : Nat) (q : LeadsQuery) :
    Nat :=
  let f := getLeadsAssigneeFilter role userId q
  ((joinRows (db.leads.filter (leadWhere q)) f.isSome (latestIncludeOn db f)
      db.assignments).map (fun p => p.1.id)).dedup.length

/-- Number of distinct lead ids in the base table. -/
def distinctLeadIdCount (db : DB) : Nat :=
  ((db.leads.map (fun l => l.id)).dedup).length

-- ==========================================================================
-- bulkLeadsController (src/unnamed/part_008)
-- ==========================================================================

/-- `getUserRoleValue(userId)`: role of a user, `null` when missing. -/
def getUserRoleValue (db : DB) (userId : Nat) : Option Role :=
  (findUser db userId).map (fun u => u.role)

/-- `isRepUnderManager(managerId, repId)`: the rep is a member of at least
one team the manager manages (via `TeamManager` then `TeamMember`). -/
def isRepUnderManager (db : DB) (managerId repId : Nat) : Bool :=
  let teamIds :=
    (db.teamManagers.filter (fun t => t.managerId == managerId)).map
      (fun t => t.teamId)
  if teamIds.isEmpty then false
  else db.teamMembers.any (fun m => teamIds.contains m.teamId && m.userId == repId)

/-- `getLatestAssignmentsMap(leadIds)`: the (lead_id, assignee_id) pairs of
ledger rows whose id is in the latest-ids subquery and whose lead is in the
batch; read back through `jsMapGet`. -/
def getLatestAssignmentsMap (db : DB) (leadIds : List Nat) :
    List (Nat × Nat) :=
  (db.assignments.filter (fun r =>
      inLatestIds db r.id && leadIds.contains r.lead_id)).map
    (fun r => (r.lead_id, r.assignee_id))

/-- `Lead.findAll({ where: { id: { in: lead_ids } }, attributes: ["id"] })`
collected into the `foundIds` set (one entry per existing lead, in table
order). -/
def foundLeadIds (db : DB) (leadIds : List Nat) : List Nat :=
  (db.leads.filter (fun l => leadIds.contains l.id)).map (fun l => l.id)

/-- The partition loop of `bulkAssign`: walk the found ids, consulting the
latest-assignee lookup; with `overwrite=false` skip leads already assigned
(to someone else: "already_assigned"; to the target:
"already_assigned_to_target"); everything else is queued for creation. -/
def partitionAssign (latest : Nat → Option Nat) (target : Nat)
    (overwrite : Bool) : List Nat → List Nat × List (Nat × String)
  | [] => ([], [])
  | i :: rest =>
    let (tc, sk) := partitionAssign latest target overwrite rest
    match latest i with
    | some c =>
      if !overwrite && c != target then (tc, (i, "already_assigned") :: sk)
      else if !overwrite && c == target then
        (tc, (i, "already_assigned_to_target") :: sk)
      else (i :: tc, sk)
    | none => (i :: tc, sk)

/-- `LeadAssignment.bulkCreate` of the worklist: one fresh-id ledger row per
queued lead (chunking in the source only splits the INSERT statements and
has no semantic effect). -/
def bulkCreateAssignments (db : DB) (actorId target : Nat) :
    List Nat → DB
  | [] => db
  | L :: rest =>
    bulkCreateAssignments (appendAssignment db L target actorId).2 actorId
      target rest

/-- Request body of `bulkAssign`. -/
structure BulkBody where
  lead_ids : List Nat := []
  assignee_id : Option Nat := none
  overwrite : Bool := false
deriving DecidableEq, Repr

/-- The success payload of `bulkAssign`. -/
structure BulkAssignResult where
  total_requested : Nat
  updated : Nat
  skipped : List (Nat × String)
  missing : List Nat
  assignee_id : Nat
  overwrite : Bool
deriving DecidableEq, Repr

/-- The partition-and-insert phase of `bulkAssign`, reached after the role
matrix admits the actor/assignee pair. -/
def bulkAssignCore (db : DB) (actorId target : Nat) (b : BulkBody) :
    Outcome BulkAssignResult × DB :=
  let found := foundLeadIds db b.lead_ids
  let missing := b.lead_ids.filter (fun i => !(found.contains i))
  let latestMap := getLatestAssignmentsMap db found
  let (toCreate, skipped) :=
    partitionAssign (fun i => jsMapGet latestMap i) target b.overwrite found
  let db' := bulkCreateAssignments db actorId target toCreate
  (.ok 200
    { total_requested := b.lead_ids.length, updated := toCreate.length,
      skipped := skipped, missing := missing, assignee_id := target,
      overwrite := b.overwrite }, db')

/-- `bulkAssign`: 400 on empty `lead_ids` or falsy `assignee_id`, 404 when
the assignee has no user row, then the role matrix — admin may only target
managers, a manager may only target sales reps inside their managed teams,
any other actor role is rejected — and finally the partition loop. -/
def bulkAssign (db : DB) (actorId : Nat) (actorRole : Role) (b : BulkBody) :
    Outcome BulkAssignResult × DB :=
  match b.lead_ids with
  | [] => (.err 400 "lead_ids[] is required.", db)
  | _ :: _ =>
    match b.assignee_id with
    | none => (.err 400 "assignee_id is required.", db)
    | some a =>
      if a = 0 then (.err 400 "assignee_id is required.", db) else
      match getUserRoleValue db a with
      | none => (.err 404 "Assignee not found.", db)
      | some assigneeRole =>
        match actorRole with
        | .admin =>
          if assigneeRole != .manager then
            (.err 403 "Admin can only bulk-assign to managers.", db)
          else bulkAssignCore db actorId a b
        | .manager =>
          if assigneeRole != .sales_rep then
            (.err 403 "Manager can only bulk-assign to sales reps.", db)
          else if !isRepUnderManager db actorId a then
            (.err 403 "Selected sales rep is not in your managed teams.", db)
          else bulkAssignCore db actorId a b
        | .sales_rep => (.err 403 "Forbidden.", db)

-- ==========================================================================
-- teamController (src/unnamed/part_012) and dashboardController
-- (TeamManager revision)
-- ==========================================================================

/-- `removeMemberFromTeam`: 404 when no membership row matches, otherwise
`membership.destroy()` removes that row. -/
def removeMemberFromTeam (db : DB) (teamId userId : Nat) :
    Outcome String × DB :=
  match db.teamMembers.find? (fun r => r.teamId == teamId && r.userId == userId) with
  | none => (.err 404 "User is not in this team", db)
  | some _ =>
    (.ok 200 "Member removed successfully",
      { db with teamMembers :=
          db.teamMembers.eraseP (fun r => r.teamId == teamId && r.userId == userId) })

/-- `resolveManagerAssignees(managerId)`: team ids managed by the actor via
`TeamManager`, then all member ids of those teams via `TeamMember`, unioned
with the actor's own id and de-duplicated — recomputed from the tables on
every call. -/
def resolveManagerAssignees (db : DB) (managerId : Nat) : List Nat :=
  let teamIds :=
    (db.teamManagers.filter (fun r => r.managerId == managerId)).map
      (fun r => r.teamId)
  if teamIds.isEmpty then [managerId]
  else
    let memberIds :=
      (db.teamMembers.filter (fun r => teamIds.contains r.teamId)).map
        (fun r => r.userId)
    jsSetDedup (managerId :: memberIds)

/-- The join condition of `buildAssignmentInclude(assigneeIds)`: with a
scope, rows of the lead naming an in-scope assignee (any ledger row, not
only the latest); without a scope, all rows of the lead. -/
def summaryIncludeOn (scope : Option (List Nat)) (l : LeadRec)
    (r : AssignmentRow) : Bool :=
  r.lead_id == l.id &&
  (match scope with | none => true | some ids => ids.contains r.assignee_id)

/-- The row product `Lead JOIN LeadAssignments` used throughout
`buildSummary` (`required` exactly when a scope is present). -/
def summaryJoin (db : DB) (scope : Option (List Nat)) :
    List (LeadRec × Option AssignmentRow) :=
  joinRows db.leads scope.isSome (summaryIncludeOn scope) db.assignments

/-- `buildSummary`'s `totalLeads`: `Lead.count` with `distinct: true,
col: "id"` over the scope join. -/
def buildSummaryTotalLeads (db : DB) (scope : Option (List Nat)) : Nat :=
  ((summaryJoin db scope).map (fun p => p.1.id)).dedup.length

/-- `GROUP BY status_id` with `COUNT(DISTINCT Lead.id)` over the scope
join (`rawStatusRows` in `buildSummary`). -/
def summaryRawStatusRows (db : DB) (scope : Option (List Nat)) :
    List (Nat × Nat) :=
  let joined := summaryJoin db scope
  ((joined.map (fun p => p.1.status_id)).dedup).map (fun sid =>
    (sid,
      ((joined.filter (fun p => p.1.status_id == sid)).map
          (fun p => p.1.id)).dedup.length))

/-- `GROUP BY source_id` with `COUNT(DISTINCT Lead.id)` over the scope
join (`rawSourceRows` in `buildSummary`); the key is nullable. -/
def summaryRawSourceRows (db : DB) (scope : Option (List Nat)) :
    List (Option Nat × Nat) :=
  let joined := summaryJoin db scope
  ((joined.map (fun p => p.1.source_id)).dedup).map (fun sid =>
    (sid,
      ((joined.filter (fun p => p.1.source_id == sid)).map
          (fun p => p.1.id)).dedup.length))

/-- One entry of a status breakdown, with the `LeadStatus` metadata the
source attaches. -/
structure StatusBreakdownEntry where
  status_id : Nat
  count : Nat
  meta : StatusRec
deriving DecidableEq, Repr

/-- One entry of a source breakdown. -/
structure SourceBreakdownEntry where
  source_id : Nat
  count : Nat
  meta : SourceRec
deriving DecidableEq, Repr

/-- `normalizeStatusBreakdown(allStatuses, countedRows)`: build a map from
the counted rows, then emit one entry per known status with `|| 0`
zero-filling. -/
def normalizeStatusBreakdown (allStatuses : List StatusRec)
    (countedRows : List (Nat × Nat)) : List StatusBreakdownEntry :=
  allStatuses.map (fun s =>
    { status_id := s.id, count := (jsMapGet countedRows s.id).getD 0,
      meta := s })

/-- `normalizeSourceBreakdown(allSources, countedRows)`: as for statuses;
a SQL `NULL` source group can never match a reference id. -/
def normalizeSourceBreakdown (allSources : List SourceRec)
    (countedRows : List (Option Nat × Nat)) : List SourceBreakdownEntry :=
  allSources.map (fun s =>
    { source_id := s.id, count := (jsMapGet countedRows (some s.id)).getD 0,
      meta := s })

/-- `leadsByStatus` as returned by `buildSummary` for a given scope. -/
def leadsByStatus (db : DB) (scope : Option (List Nat)) :
    List StatusBreakdownEntry :=
  normalizeStatusBreakdown db.statuses (summaryRawStatusRows db scope)

/-- `leadsBySource` as returned by `buildSummary` for a given scope. -/
def leadsBySource (db : DB) (scope : Option (List Nat)) :
    List SourceBreakdownEntry :=
  normalizeSourceBreakdown db.sources (summaryRawSourceRows db scope)

/-- The `latestAssignedToMeLeadIds` subquery of `getSalesRepSummary`: lead
ids of ledger rows that are the max-id row of their lead and name the
current user. -/
def pipelineLeadIds (db : DB) (userId : Nat) : List Nat :=
  (db.assignments.filter (fun la =>
      inLatestIds db la.id && la.assignee_id == userId)).map
    (fun la => la.lead_id)

/-- Leads in the sales rep's pipeline (`WHERE id IN latestAssignedToMe`). -/
def salesRepScopedLeads (db : DB) (userId : Nat) : List LeadRec :=
  db.leads.filter (fun l => (pipelineLeadIds db userId).contains l.id)

/-- SQL `GROUP BY k` with `COUNT(*)`: one pair per distinct key with its
multiplicity. -/
def groupCountsBy {κ : Type} [DecidableEq κ] (keys : List κ) :
    List (κ × Nat) :=
  keys.dedup.map (fun k => (k, keys.count k))

/-- `byStatus` of `getSalesRepSummary`: zero-filled against the status
reference table from the pipeline's group-by rows. -/
def salesRepByStatus (db : DB) (userId : Nat) : List StatusBreakdownEntry :=
  let raw := groupCountsBy ((salesRepScopedLeads db userId).map (fun l => l.status_id))
  db.statuses.map (fun s =>
    { status_id := s.id, count := (jsMapGet raw s.id).getD 0, meta := s })

/-- `bySource` of `getSalesRepSummary`: as `byStatus`, with the `NULL`
source group filtered out before the map is built. -/
def salesRepBySource (db : DB) (userId : Nat) : List SourceBreakdownEntry :=
  let raw :=
    (groupCountsBy ((salesRepScopedLeads db userId).map (fun l => l.source_id))).filter
      (fun p => p.1.isSome)
  db.sources.map (fun s =>
    { source_id := s.id, count := (jsMapGet raw (some s.id)).getD 0, meta := s })

/-- Number of ledger rows of one lead. -/
def countRowsOf (db : DB) (lid : Nat) : Nat :=
  (rowsOf db lid).length

-- ==========================================================================
-- Concrete sample data used by witnesses and counterexamples
-- ==========================================================================

/-- A lead row with only the required fields populated. -/
def mkLead (i sid createdBy : Nat) : LeadRec :=
  { id := i, first_name := none, last_name := none, company := none,
    email := none, phone := none, country := none, status_id := sid,
    source_id := none, value_decimal := 0, notes := none,
    created_by := createdBy, updated_by := none }

/-- A small store: manager 1 manages team 4 whose only member is sales rep
3; admin 2; sales rep 5 belongs to no team; manager 6 manages nothing.
Lead 7 is currently assigned to sales rep 5 (single ledger row). -/
def baseDb : DB :=
  { users := [⟨1, .manager, true⟩, ⟨2, .admin, true⟩, ⟨3, .sales_rep, true⟩,
      ⟨5, .sales_rep, true⟩, ⟨6, .manager, true⟩],
    leads := [mkLead 7 1 2],
    assignments := [⟨1, 7, 5, 2⟩],
    statuses := [⟨1, "new", "New"⟩, ⟨2, "won", "Won"⟩],
    sources := [⟨1, "web", "Web"⟩],
    teamManagers := [⟨1, 4⟩],
    teamMembers := [⟨4, 3⟩],
    nextLeadId := 8, nextAssignmentId := 2 }

-- ==========================================================================
-- Lemmas: the max-id row and append-only freshness
-- ==========================================================================

theorem maxIdRow_mem {l : List AssignmentRow} {r : AssignmentRow}
    (h : maxIdRow l = some r) : r ∈ l := by
  induction l with
  | nil => simp [maxIdRow] at h
  | cons a t ih =>
    cases hm : maxIdRow t with
    | none =>
      simp only [maxIdRow, hm, maxIdStep, Option.some.injEq] at h
      simp [h]
    | some b =>
      simp only [maxIdRow, hm, maxIdStep] at h
      by_cases hb : b.id < a.id
      · rw [if_pos hb, Option.some.injEq] at h
        simp [h]
      · rw [if_neg hb, Option.some.injEq] at h
        subst h
        exact List.mem_cons_of_mem _ (ih hm)

theorem maxIdRow_eq_none {l : List AssignmentRow} :
    maxIdRow l = none ↔ l = [] := by
  cases l with
  | nil => simp [maxIdRow]
  | cons a t =>
    simp only [maxIdRow]
    cases maxIdRow t with
    | none => simp [maxIdStep]
    | some b =>
      by_cases hb : b.id < a.id
      · simp [maxIdStep, if_pos hb]
      · simp [maxIdStep, if_neg hb]

theorem maxIdRow_ge {l : List AssignmentRow} {r : AssignmentRow}
    (h : maxIdRow l = some r) : ∀ x ∈ l, x.id ≤ r.id := by
  induction l generalizing r with
  | nil => simp
  | cons a t ih =>
    intro x hx
    rcases List.mem_cons.mp hx with hxa | hxt
    · subst hxa
      cases hm : maxIdRow t with
      | none =>
        simp only [maxIdRow, hm, maxIdStep, Option.some.injEq] at h
        subst h
        omega
      | some b =>
        simp only [maxIdRow, hm, maxIdStep] at h
        by_cases hb : b.id < x.id
        · rw [if_pos hb, Option.some.injEq] at h
          subst h
          omega
        · rw [if_neg hb, Option.some.injEq] at h
          subst h
          omega
    · cases hm : maxIdRow t with
      | none =>
        rw [maxIdRow_eq_none.mp hm] at hxt
        simp at hxt
      | some b =>
        have hxb := ih hm x hxt
        simp only [maxIdRow, hm, maxIdStep] at h
        by_cases hb : b.id < a.id
        · rw [if_pos hb, Option.some.injEq] at h
          subst h
          omega
        · rw [if_neg hb, Option.some.injEq] at h
          subst h
          omega

theorem maxIdRow_append_fresh {l : List AssignmentRow} {r : AssignmentRow}
    (h : ∀ x ∈ l, x.id < r.id) : maxIdRow (l ++ [r]) = some r := by
  induction l with
  | nil => simp [maxIdRow, maxIdStep]
  | cons a t ih =>
    have ht : maxIdRow (t ++ [r]) = some r :=
      ih (fun x hx => h x (List.mem_cons_of_mem _ hx))
    have ha : a.id < r.id := h a (List.mem_cons_self a t)
    rw [List.cons_append]
    simp only [maxIdRow, ht, maxIdStep]
    rw [if_neg (by omega)]

/-- Membership in `rowsOf` spelt out. -/
theorem mem_rowsOf {db : DB} {lid : Nat} {x : AssignmentRow} :
    x ∈ rowsOf db lid ↔ x ∈ db.assignments ∧ x.lead_id = lid := by
  simp [rowsOf, List.mem_filter]

/-- After one `appendAssignment`, the created row is the latest row of its
lead and every other lead's latest row is untouched. -/
theorem latest_appendAssignment (db : DB) (hwf : db.Wf) (L a b_ : Nat) :
    latestRowOf (appendAssignment db L a b_).2 L =
      some (appendAssignment db L a b_).1 ∧
    (∀ L', L' ≠ L →
      latestRowOf (appendAssignment db L a b_).2 L' = latestRowOf db L') := by
  constructor
  · show maxIdRow (List.filter _ (db.assignments ++ [_])) = _
    rw [List.filter_append]
    simp only [appendAssignment, List.filter_cons, List.filter_nil]
    rw [if_pos (by simp)]
    exact maxIdRow_append_fresh (fun x hx => hwf.2.1 x (List.mem_filter.mp hx).1)
  · intro L' hL'
    show maxIdRow (List.filter _ (db.assignments ++ [_])) = _
    rw [List.filter_append]
    simp only [appendAssignment, List.filter_cons, List.filter_nil]
    rw [if_neg (by simp [Ne.symm hL'])]
    simp [latestRowOf, rowsOf]

/-- `appendAssignment` preserves the store invariant. -/
theorem wf_appendAssignment (db : DB) (hwf : db.Wf) (L a b_ : Nat) :
    (appendAssignment db L a b_).2.Wf := by
  obtain ⟨hnd, hlt, hlnd, hllt⟩ := hwf
  refine ⟨?_, ?_, hlnd, hllt⟩
  · simp only [appendAssignment, List.map_append, List.map_cons, List.map_nil]
    rw [List.nodup_append]
    refine ⟨hnd, List.nodup_singleton _, ?_⟩
    intro x hx hx2
    rcases List.mem_map.mp hx with ⟨rr, hrr, hrx⟩
    have := hlt rr hrr
    simp only [List.mem_singleton] at hx2
    omega
  · intro r hr
    simp only [appendAssignment, List.mem_append, List.mem_singleton] at hr
    rcases hr with hr | hr
    · have := hlt r hr
      simp only [appendAssignment]
      omega
    · subst hr
      simp [appendAssignment]

-- ==========================================================================
-- Lemmas: the LATEST_ASSIGNMENT_IDS subquery picks exactly the max-id row
-- ==========================================================================

/-- Ledger rows are distinguished by their ids. -/
theorem eq_of_mem_of_id_eq {db : DB} (hwf : db.Wf) {x y : AssignmentRow}
    (hx : x ∈ db.assignments) (hy : y ∈ db.assignments) (hxy : x.id = y.id) :
    x = y :=
  List.inj_on_of_nodup_map hwf.1 hx hy hxy

/-- A ledger row's id is in the latest-ids subquery exactly when the row is
the max-id row of its own lead. -/
theorem inLatestIds_iff {db : DB} (hwf : db.Wf) {r : AssignmentRow}
    (hr : r ∈ db.assignments) :
    inLatestIds db r.id = true ↔ latestRowOf db r.lead_id = some r := by
  constructor
  · intro h
    rcases List.any_eq_true.mp h with ⟨x, hx, hxr⟩
    have hxr' : latestIdOf db x.lead_id = some r.id := by simpa using hxr
    unfold latestIdOf at hxr'
    cases hm : latestRowOf db x.lead_id with
    | none => rw [hm] at hxr'; simp at hxr'
    | some m =>
      rw [hm] at hxr'
      simp only [Option.map_some', Option.some.injEq] at hxr'
      have hmmem : m ∈ db.assignments := (mem_rowsOf.mp (maxIdRow_mem hm)).1
      have hmr : m = r := eq_of_mem_of_id_eq hwf hmmem hr hxr'
      have hlid : m.lead_id = x.lead_id := (mem_rowsOf.mp (maxIdRow_mem hm)).2
      rw [← hmr, hlid]
      exact hm
  · intro h
    refine List.any_eq_true.mpr ⟨r, hr, ?_⟩
    simp [latestIdOf, h]

/-- A nodup list all of whose members equal `m`, with `m` a member, is `[m]`. -/
theorem eq_singleton_of_forall_eq {α : Type} {l : List α} {m : α}
    (hn : l.Nodup) (hm : m ∈ l) (hall : ∀ x ∈ l, x = m) : l = [m] := by
  cases l with
  | nil => simp at hm
  | cons a t =>
    have ha : a = m := hall a (List.mem_cons_self a t)
    subst ha
    cases t with
    | nil => rfl
    | cons b u =>
      have hb : b = a := hall b (by simp)
      rcases List.nodup_cons.mp hn with ⟨hna, _⟩
      exact absurd (by simp [hb]) hna

/-- The generic "some latest row of this lead satisfies `p`" test used by the
required latest-assignment joins. -/
theorem any_latest_iff {db : DB} (hwf : db.Wf) (L : Nat)
    (p : AssignmentRow → Bool) :
    (db.assignments.any
        (fun r => r.lead_id == L && inLatestIds db r.id && p r) = true) ↔
      ∃ m, latestRowOf db L = some m ∧ p m = true := by
  constructor
  · intro h
    rcases List.any_eq_true.mp h with ⟨r, hr, hcond⟩
    simp only [Bool.and_eq_true, beq_iff_eq] at hcond
    obtain ⟨⟨h1, h2⟩, h3⟩ := hcond
    refine ⟨r, ?_, h3⟩
    rw [← h1]
    exact (inLatestIds_iff hwf hr).mp h2
  · rintro ⟨m, hm, hp⟩
    have hmem : m ∈ db.assignments := (mem_rowsOf.mp (maxIdRow_mem hm)).1
    have hlid : m.lead_id = L := (mem_rowsOf.mp (maxIdRow_mem hm)).2
    refine List.any_eq_true.mpr ⟨m, hmem, ?_⟩
    have hlat : latestRowOf db m.lead_id = some m := by rw [hlid]; exact hm
    simp [hlid, (inLatestIds_iff hwf hmem).mpr hlat, hp]

/-- With a required assignee filter, the latest-assignment include keeps a
lead exactly when its current (max-id) assignee is the requested one. -/
theorem passesLatestInclude_some {db : DB} (hwf : db.Wf) (a : Nat)
    (l : LeadRec) :
    passesLatestInclude db (some a) l = true ↔
      latestAssigneeOf db l.id = some a := by
  have hred : passesLatestInclude db (some a) l =
      db.assignments.any
        (fun r => r.lead_id == l.id && inLatestIds db r.id &&
          (r.assignee_id == a)) := rfl
  rw [hred, any_latest_iff hwf]
  unfold latestAssigneeOf
  constructor
  · rintro ⟨m, hm, hp⟩
    rw [hm]
    simpa using hp
  · intro h
    cases hm : latestRowOf db l.id with
    | none => rw [hm] at h; simp at h
    | some m =>
      rw [hm] at h
      exact ⟨m, rfl, by simpa using h⟩

/-- Reading the batched latest-assignment map at any requested lead gives
`latestAssigneeOf`. -/
theorem getLatestAssignmentsMap_lookup {db : DB} (hwf : db.Wf)
    {leadIds : List Nat} {L : Nat} (hL : L ∈ leadIds) :
    jsMapGet (getLatestAssignmentsMap db leadIds) L = latestAssigneeOf db L := by
  unfold jsMapGet getLatestAssignmentsMap
  rw [List.filter_map]
  have hpred : ((fun p : Nat × Nat => p.1 == L) ∘
      fun r : AssignmentRow => (r.lead_id, r.assignee_id)) =
      fun r : AssignmentRow => r.lead_id == L := rfl
  rw [hpred, List.filter_filter]
  cases hm : latestRowOf db L with
  | none =>
    have hempty : rowsOf db L = [] := maxIdRow_eq_none.mp hm
    have : db.assignments.filter
        (fun r => r.lead_id == L &&
          (inLatestIds db r.id && leadIds.contains r.lead_id)) = [] := by
      rw [List.filter_eq_nil_iff]
      intro r hr hcond
      simp only [Bool.and_eq_true, beq_iff_eq] at hcond
      have : r ∈ rowsOf db L := mem_rowsOf.mpr ⟨hr, hcond.1⟩
      rw [hempty] at this
      simp at this
    rw [this]
    simp [latestAssigneeOf, hm]
  | some m =>
    have hmem : m ∈ db.assignments := (mem_rowsOf.mp (maxIdRow_mem hm)).1
    have hlid : m.lead_id = L := (mem_rowsOf.mp (maxIdRow_mem hm)).2
    have hsingle : db.assignments.filter
        (fun r => r.lead_id == L &&
          (inLatestIds db r.id && leadIds.contains r.lead_id)) = [m] := by
      apply eq_singleton_of_forall_eq
      · exact (List.Nodup.of_map _ hwf.1).filter _
      · rw [List.mem_filter]
        refine ⟨hmem, ?_⟩
        have hin : inLatestIds db m.id = true :=
          (inLatestIds_iff hwf hmem).mpr (by rw [hlid]; exact hm)
        simp [hin, hlid, hL]
      · intro x hx
        rcases List.mem_filter.mp hx with ⟨hxmem, hcond⟩
        simp only [Bool.and_eq_true, beq_iff_eq] at hcond
        have hxl : latestRowOf db x.lead_id = some x :=
          (inLatestIds_iff hwf hxmem).mp hcond.2.1
        rw [hcond.1, hm] at hxl
        exact (Option.some.injEq _ _ ▸ hxl).symm
    rw [hsingle]
    simp [latestAssigneeOf, hm]

-- ==========================================================================
-- Lemmas: bulk creation of ledger rows
-- ==========================================================================

/-- `bulkCreateAssignments` leaves every non-ledger table untouched. -/
theorem bulkCreate_fields (db : DB) (actor t : Nat) (ls : List Nat) :
    (bulkCreateAssignments db actor t ls).users = db.users ∧
    (bulkCreateAssignments db actor t ls).leads = db.leads ∧
    (bulkCreateAssignments db actor t ls).teamManagers = db.teamManagers ∧
    (bulkCreateAssignments db actor t ls).teamMembers = db.teamMembers := by
  induction ls generalizing db with
  | nil => simp [bulkCreateAssignments]
  | cons L rest ih =>
    simpa [bulkCreateAssignments, appendAssignment] using
      ih { db with assignments := _, nextAssignmentId := _ }

/-- The prior ledger survives as a prefix of the new one. -/
theorem bulkCreate_append (db : DB) (actor t : Nat) (ls : List Nat) :
    ∃ rows, (bulkCreateAssignments db actor t ls).assignments =
      db.assignments ++ rows := by
  induction ls generalizing db with
  | nil => exact ⟨[], by simp [bulkCreateAssignments]⟩
  | cons L rest ih =>
    rcases ih (appendAssignment db L t actor).2 with ⟨rows, hrows⟩
    refine ⟨(appendAssignment db L t actor).1 :: rows, ?_⟩
    rw [bulkCreateAssignments, hrows]
    simp [appendAssignment]

/-- `bulkCreateAssignments` preserves the store invariant. -/
theorem wf_bulkCreate (db : DB) (hwf : db.Wf) (actor t : Nat) (ls : List Nat) :
    (bulkCreateAssignments db actor t ls).Wf := by
  induction ls generalizing db with
  | nil => exact hwf
  | cons L rest ih =>
    exact ih _ (wf_appendAssignment db hwf L t actor)

/-- After a bulk creation over distinct lead ids, each targeted lead's
latest assignee is the target and every other lead is untouched. -/
theorem bulkCreate_latest (db : DB) (hwf : db.Wf) (actor t : Nat)
    (ls : List Nat) (hnd : ls.Nodup) :
    (∀ L ∈ ls,
      latestAssigneeOf (bulkCreateAssignments db actor t ls) L = some t) ∧
    (∀ L, L ∉ ls →
      latestAssigneeOf (bulkCreateAssignments db actor t ls) L =
        latestAssigneeOf db L) := by
  induction ls generalizing db with
  | nil => exact ⟨by simp, fun L _ => by simp [bulkCreateAssignments]⟩
  | cons L0 rest ih =>
    rcases List.nodup_cons.mp hnd with ⟨hL0, hrest⟩
    have hwf1 := wf_appendAssignment db hwf L0 t actor
    have hlat := latest_appendAssignment db hwf L0 t actor
    obtain ⟨ih1, ih2⟩ := ih (appendAssignment db L0 t actor).2 hwf1 hrest
    constructor
    · intro L hL
      rcases List.mem_cons.mp hL with hL | hL
      · subst hL
        rw [bulkCreateAssignments, ih2 L hL0]
        unfold latestAssigneeOf
        rw [hlat.1]
        simp [appendAssignment]
      · exact ih1 L hL
    · intro L hL
      rw [List.mem_cons, not_or] at hL
      rw [bulkCreateAssignments, ih2 L hL.2]
      unfold latestAssigneeOf
      rw [hlat.2 L hL.1]

/-- Row counts per lead grow by the multiplicity of the lead in the batch. -/
theorem bulkCreate_count (db : DB) (actor t : Nat) (ls : List Nat) (L : Nat) :
    countRowsOf (bulkCreateAssignments db actor t ls) L =
      countRowsOf db L + ls.count L := by
  induction ls generalizing db with
  | nil => simp [bulkCreateAssignments]
  | cons L0 rest ih =>
    rw [bulkCreateAssignments, ih]
    have happ : countRowsOf (appendAssignment db L0 t actor).2 L =
        countRowsOf db L + (if L0 == L then 1 else 0) := by
      unfold countRowsOf rowsOf
      simp only [appendAssignment, List.filter_append, List.filter_cons,
        List.filter_nil, List.length_append]
      by_cases h : L0 = L
      · subst h; simp
      · simp [h]
    rw [happ, List.count_cons]
    by_cases h : L0 = L
    · subst h; simp [Nat.add_comm, Nat.add_assoc, Nat.add_left_comm]
    · simp [h, Ne.symm h]

-- ==========================================================================
-- Lemmas: the bulkAssign partition loop
-- ==========================================================================

/-- With `overwrite=true` nothing is ever skipped: every found lead is
queued for a fresh ledger row. -/
theorem partitionAssign_overwrite (latest : Nat → Option Nat) (t : Nat)
    (ls : List Nat) : partitionAssign latest t true ls = (ls, []) := by
  induction ls with
  | nil => rfl
  | cons i rest ih =>
    rw [partitionAssign, ih]
    cases latest i <;> simp

/-- With `overwrite=false` the queue is exactly the never-assigned leads and
the skip list pairs every currently-assigned lead with its reason. -/
theorem partitionAssign_no_overwrite (latest : Nat → Option Nat) (t : Nat)
    (ls : List Nat) :
    partitionAssign latest t false ls =
      (ls.filter (fun i => latest i == none),
       ls.filterMap (fun i =>
         match latest i with
         | none => none
         | some c =>
           some (i, if c == t then "already_assigned_to_target"
                    else "already_assigned"))) := by
  induction ls with
  | nil => rfl
  | cons i rest ih =>
    rw [partitionAssign, ih]
    cases hc : latest i with
    | none => simp [List.filter_cons, List.filterMap_cons, hc]
    | some c =>
      by_cases hct : c = t
      · subst hct
        simp [List.filter_cons, List.filterMap_cons, hc]
      · simp [List.filter_cons, List.filterMap_cons, hc, hct]

/-- `filterMap` collapses to `map` when the function is total on the list. -/
theorem filterMap_eq_map_of_forall {α β : Type} {l : List α}
    {f : α → Option β} {g : α → β} (h : ∀ x ∈ l, f x = some (g x)) :
    l.filterMap f = l.map g := by
  induction l with
  | nil => rfl
  | cons a t ih =>
    rw [List.filterMap_cons, h a (List.mem_cons_self a t), List.map_cons,
      ih (fun x hx => h x (List.mem_cons_of_mem _ hx))]

-- ==========================================================================
-- Lemmas: found lead ids
-- ==========================================================================

theorem mem_foundLeadIds {db : DB} {leadIds : List Nat} {L : Nat} :
    L ∈ foundLeadIds db leadIds ↔
      L ∈ leadIds ∧ ∃ l ∈ db.leads, l.id = L := by
  unfold foundLeadIds
  constructor
  · intro h
    rcases List.mem_map.mp h with ⟨l, hl, hid⟩
    rcases List.mem_filter.mp hl with ⟨hmem, hcond⟩
    subst hid
    exact ⟨by simpa using hcond, l, hmem, rfl⟩
  · rintro ⟨hin, l, hl, hid⟩
    subst hid
    exact List.mem_map.mpr ⟨l, List.mem_filter.mpr ⟨hl, by simpa using hin⟩, rfl⟩

theorem foundLeadIds_nodup {db : DB} (hwf : db.Wf) (leadIds : List Nat) :
    (foundLeadIds db leadIds).Nodup := by
  unfold foundLeadIds
  have hsub : List.Sublist
      ((db.leads.filter (fun l => leadIds.contains l.id)).map (fun l => l.id))
      (db.leads.map (fun l => l.id)) :=
    (List.filter_sublist _).map _
  exact hwf.2.2.1.sublist hsub

-- ==========================================================================
-- Lemmas: lists, dedup and JavaScript collections
-- ==========================================================================

theorem dedup_length_mono {l1 l2 : List Nat} (h : l1 ⊆ l2) :
    l1.dedup.length ≤ l2.dedup.length := by
  rw [← List.card_toFinset l1, ← List.card_toFinset l2]
  exact Finset.card_le_card (fun x hx =>
    List.mem_toFinset.mpr (h (List.mem_toFinset.mp hx)))

theorem joinRows_fst_mem {leads : List LeadRec} {required : Bool}
    {onJoin : LeadRec → AssignmentRow → Bool} {rows : List AssignmentRow}
    {p : LeadRec × Option AssignmentRow}
    (h : p ∈ joinRows leads required onJoin rows) : p.1 ∈ leads := by
  unfold joinRows at h
  rcases List.mem_flatMap.mp h with ⟨l, hl, hp⟩
  by_cases he : (rows.filter (onJoin l)).isEmpty
  · rw [if_pos he] at hp
    cases required with
    | true => simp at hp
    | false =>
      simp at hp
      subst hp
      exact hl
  · rw [if_neg he] at hp
    rcases List.mem_map.mp hp with ⟨r, _, hr⟩
    subst hr
    exact hl

/-- `jsSetDedup` really is a set: no duplicates, same membership. -/
theorem jsSetDedup_spec (xs : List Nat) :
    (jsSetDedup xs).Nodup ∧ ∀ y, y ∈ jsSetDedup xs ↔ y ∈ xs := by
  suffices h : ∀ (xs acc : List Nat), acc.Nodup →
      (xs.foldl (fun acc x => if acc.contains x then acc else acc ++ [x]) acc).Nodup ∧
      ∀ y, y ∈ xs.foldl (fun acc x => if acc.contains x then acc else acc ++ [x]) acc ↔
        y ∈ acc ∨ y ∈ xs by
    obtain ⟨h1, h2⟩ := h xs [] List.nodup_nil
    unfold jsSetDedup
    exact ⟨h1, fun y => by rw [h2 y]; simp⟩
  intro xs
  induction xs with
  | nil =>
    intro acc hacc
    refine ⟨hacc, fun y => ?_⟩
    simp
  | cons x t ih =>
    intro acc hacc
    by_cases hx : acc.contains x
    · have hstep : (if acc.contains x then acc else acc ++ [x]) = acc :=
        if_pos hx
      obtain ⟨h1, h2⟩ := ih acc hacc
      rw [List.foldl_cons, hstep]
      refine ⟨h1, fun y => ?_⟩
      rw [h2 y]
      constructor
      · rintro (hy | hy)
        · exact Or.inl hy
        · exact Or.inr (List.mem_cons_of_mem _ hy)
      · rintro (hy | hy)
        · exact Or.inl hy
        · rcases List.mem_cons.mp hy with hy | hy
          · subst hy
            exact Or.inl (by simpa using hx)
          · exact Or.inr hy
    · have hstep : (if acc.contains x then acc else acc ++ [x]) = acc ++ [x] :=
        if_neg hx
      have hacc' : (acc ++ [x]).Nodup := by
        rw [List.nodup_append]
        exact ⟨hacc, List.nodup_singleton _,
          fun y hy hy2 => hx (by
            simp only [List.mem_singleton] at hy2
            subst hy2
            simpa using hy)⟩
      obtain ⟨h1, h2⟩ := ih (acc ++ [x]) hacc'
      rw [List.foldl_cons, hstep]
      refine ⟨h1, fun y => ?_⟩
      rw [h2 y]
      simp only [List.mem_append, List.mem_singleton, List.mem_cons]
      tauto

/-- Erasing the unique element satisfying `p` from a nodup list removes it. -/
theorem not_mem_eraseP_of_unique {α : Type} {l : List α} {p : α → Bool}
    {a : α} (hn : l.Nodup) (hp : ∀ x, p x = true ↔ x = a) :
    a ∉ l.eraseP p := by
  induction l with
  | nil => simp
  | cons x t ih =>
    rcases List.nodup_cons.mp hn with ⟨hx, ht⟩
    by_cases hpx : p x = true
    · rw [List.eraseP_cons_of_pos hpx]
      rw [hp x] at hpx
      subst hpx
      exact hx
    · rw [List.eraseP_cons_of_neg (by simpa using hpx)]
      intro hmem
      rcases List.mem_cons.mp hmem with hmem | hmem
      · subst hmem
        exact hpx ((hp _).mpr rfl)
      · exact ih ht hmem

-- ==========================================================================
-- Lemmas: operations and the invariant; bulkAssign role gate
-- ==========================================================================

/-- When a key has no pair in the map, `jsMapGet` is `none`. -/
theorem jsMapGet_eq_none {κ α : Type} [BEq κ] {m : List (κ × α)} {k : κ}
    (h : ∀ p ∈ m, (p.1 == k) = false) : jsMapGet m k = none := by
  unfold jsMapGet
  rw [List.filter_eq_nil_iff.mpr (fun p hp => by simp [h p hp])]
  rfl

/-- Every key of a group-by row list occurs among the grouped keys. -/
theorem groupCountsBy_keys {κ : Type} [DecidableEq κ] {keys : List κ}
    {p : κ × Nat} (h : p ∈ groupCountsBy keys) : p.1 ∈ keys := by
  unfold groupCountsBy at h
  rcases List.mem_map.mp h with ⟨k, hk, hkp⟩
  subst hkp
  exact List.mem_dedup.mp hk

/-- A successful `assignLead` preserves the store invariant. -/
theorem wf_assignLead (db : DB) (hwf : db.Wf) (actorId leadId assigneeId : Nat) :
    (assignLead db actorId leadId assigneeId).2.Wf := by
  unfold assignLead
  cases findLead db leadId with
  | none => exact hwf
  | some l =>
    cases findUser db assigneeId with
    | none => exact hwf
    | some u => exact wf_appendAssignment db hwf leadId assigneeId actorId

/-- With non-empty lead ids, a present non-zero assignee that exists, and an
actor/assignee pair admitted by the role matrix, `bulkAssign` reaches the
partition core. -/
theorem bulkAssign_eq_core (db : DB) (actorId : Nat) (actorRole : Role)
    (b : BulkBody) (a : Nat) (u : UserRec)
    (hids : b.lead_ids ≠ [])
    (ha : b.assignee_id = some a) (ha0 : a ≠ 0)
    (hu : findUser db a = some u)
    (hauth : (actorRole = .admin ∧ u.role = .manager) ∨
      (actorRole = .manager ∧ u.role = .sales_rep ∧
        isRepUnderManager db actorId a = true)) :
    bulkAssign db actorId actorRole b = bulkAssignCore db actorId a b := by
  unfold bulkAssign
  cases hl : b.lead_ids with
  | nil => exact absurd hl hids
  | cons i rest =>
    rw [ha]
    have hrole : getUserRoleValue db a = some u.role := by
      unfold getUserRoleValue
      rw [hu]
      rfl
    simp only [if_neg ha0, hrole]
    rcases hauth with ⟨hadm, hrm⟩ | ⟨hman, hrs, hunder⟩
    · subst hadm
      rw [hrm]
      rfl
    · subst hman
      rw [hrs, hunder]
      rfl

/-- `bulkAssignCore` leaves the lead, user and team tables untouched, and
the prior ledger is a prefix of the new one. -/
theorem bulkAssignCore_fields (db : DB) (actorId a : Nat) (b : BulkBody) :
    (bulkAssignCore db actorId a b).2.users = db.users ∧
    (bulkAssignCore db actorId a b).2.leads = db.leads ∧
    (bulkAssignCore db actorId a b).2.teamManagers = db.teamManagers ∧
    (bulkAssignCore db actorId a b).2.teamMembers = db.teamMembers ∧
    ∃ rows, (bulkAssignCore db actorId a b).2.assignments =
      db.assignments ++ rows := by
  unfold bulkAssignCore
  obtain ⟨h1, h2, h3, h4⟩ := bulkCreate_fields db actorId a
    (partitionAssign
      (fun i => jsMapGet (getLatestAssignmentsMap db (foundLeadIds db b.lead_ids)) i)
      a b.overwrite (foundLeadIds db b.lead_ids)).1
  exact ⟨h1, h2, h3, h4,
    bulkCreate_append db actorId a _⟩

/-- Inserting a lead with the fresh auto-increment id preserves the store
invariant. -/
theorem wf_insertLead (db : DB) (hwf : db.Wf) (l : LeadRec)
    (hid : l.id = db.nextLeadId) :
    ({ db with leads := db.leads ++ [l],
               nextLeadId := db.nextLeadId + 1 } : DB).Wf := by
  obtain ⟨h1, h2, h3, h4⟩ := hwf
  refine ⟨h1, h2, ?_, ?_⟩
  · show ((db.leads ++ [l]).map (fun x => x.id)).Nodup
    rw [List.map_append, List.nodup_append]
    refine ⟨h3, by simp, ?_⟩
    intro y hy hy2
    rcases List.mem_map.mp hy with ⟨x, hx, hxy⟩
    have hxl := h4 x hx
    simp only [List.map_cons, List.map_nil, List.mem_singleton] at hy2
    omega
  · show ∀ x ∈ db.leads ++ [l], x.id < db.nextLeadId + 1
    intro x hx
    simp only [List.mem_append, List.mem_singleton] at hx
    rcases hx with hx | hx
    · have := h4 x hx
      omega
    · subst hx
      omega

/-- After the request validations pass (non-empty ids, present non-zero
assignee that exists), `bulkAssign` is exactly its role gate. -/
theorem bulkAssign_gate (db : DB) (actorId : Nat) (actorRole : Role)
    (b : BulkBody) (a : Nat) (u : UserRec)
    (hids : b.lead_ids ≠ [])
    (ha : b.assignee_id = some a) (ha0 : a ≠ 0)
    (hu : findUser db a = some u) :
    bulkAssign db actorId actorRole b =
      match actorRole with
      | .admin =>
        if u.role != .manager then
          (.err 403 "Admin can only bulk-assign to managers.", db)
        else bulkAssignCore db actorId a b
      | .manager =>
        if u.role != .sales_rep then
          (.err 403 "Manager can only bulk-assign to sales reps.", db)
        else if !isRepUnderManager db actorId a then
          (.err 403 "Selected sales rep is not in your managed teams.", db)
        else bulkAssignCore db actorId a b
      | .sales_rep => (.err 403 "Forbidden.", db) := by
  unfold bulkAssign
  cases hl : b.lead_ids with
  | nil => exact absurd hl hids
  | cons i rest =>
    rw [ha]
    have hrole : getUserRoleValue db a = some u.role := by
      unfold getUserRoleValue
      rw [hu]
      rfl
    dsimp only
    rw [if_neg ha0, hrole]

/-- With `overwrite=true` the partition loop queues every found lead, so the
core appends one row per found lead and skips nothing. -/
theorem bulkAssignCore_overwrite (db : DB) (actorId a : Nat)
    (ids : List Nat) :
    bulkAssignCore db actorId a ⟨ids, some a, true⟩ =
      (.ok 200 { total_requested := ids.length,
                 updated := (foundLeadIds db ids).length,
                 skipped := [],
                 missing := ids.filter
                   (fun i => !((foundLeadIds db ids).contains i)),
                 assignee_id := a, overwrite := true },
       bulkCreateAssignments db actorId a (foundLeadIds db ids)) := by
  unfold bulkAssignCore
  dsimp only
  rw [partitionAssign_overwrite]

/-- `foundLeadIds` depends only on the leads table. -/
theorem foundLeadIds_eq_of_leads_eq {db db' : DB} (h : db'.leads = db.leads)
    (ids : List Nat) : foundLeadIds db' ids = foundLeadIds db ids := by
  unfold foundLeadIds
  rw [h]

/-- Membership in the resolved manager scope: the manager themself plus
every member of any team they manage. -/
theorem mem_resolveManagerAssignees (db : DB) (M v : Nat) :
    v ∈ resolveManagerAssignees db M ↔
      (v = M ∨ ∃ t, (⟨M, t⟩ : TeamManagerRow) ∈ db.teamManagers ∧
        (⟨t, v⟩ : TeamMemberRow) ∈ db.teamMembers) := by
  unfold resolveManagerAssignees
  by_cases hemp : ((db.teamManagers.filter
      (fun r => r.managerId == M)).map (fun r => r.teamId)).isEmpty
  · rw [if_pos hemp]
    simp only [List.mem_singleton]
    constructor
    · exact fun h => Or.inl h
    · rintro (h | ⟨t, hman, hmem⟩)
      · exact h
      · exfalso
        have ht : t ∈ (db.teamManagers.filter
            (fun r => r.managerId == M)).map (fun r => r.teamId) :=
          List.mem_map.mpr
            ⟨⟨M, t⟩, List.mem_filter.mpr ⟨hman, by simp⟩, rfl⟩
        rw [List.isEmpty_iff.mp hemp] at ht
        simp at ht
  · rw [if_neg hemp]
    rw [(jsSetDedup_spec _).2 v]
    simp only [List.mem_cons]
    constructor
    · rintro (h | h)
      · exact Or.inl h
      · rcases List.mem_map.mp h with ⟨row, hrow, hrv⟩
        rcases List.mem_filter.mp hrow with ⟨hrmem, hcont⟩
        have hti : row.teamId ∈ (db.teamManagers.filter
            (fun r => r.managerId == M)).map (fun r => r.teamId) := by
          simpa using hcont
        rcases List.mem_map.mp hti with ⟨mg, hmg, hmgid⟩
        rcases List.mem_filter.mp hmg with ⟨hmgmem, hmgM⟩
        refine Or.inr ⟨row.teamId, ?_, ?_⟩
        · obtain ⟨m1, t1⟩ := mg
          have h1 : m1 = M := by simpa using hmgM
          simp only at hmgid
          subst h1
          subst hmgid
          exact hmgmem
        · obtain ⟨t2, u2⟩ := row
          simp only at hrv
          subst hrv
          exact hrmem
    · rintro (h | ⟨t, hman, hmem⟩)
      · exact Or.inl h
      · refine Or.inr (List.mem_map.mpr ⟨⟨t, v⟩, ?_, rfl⟩)
        refine List.mem_filter.mpr ⟨hmem, ?_⟩
        have ht : t ∈ (db.teamManagers.filter
            (fun r => r.managerId == M)).map (fun r => r.teamId) :=
          List.mem_map.mpr
            ⟨⟨M, t⟩, List.mem_filter.mpr ⟨hman, by simp⟩, rfl⟩
        simpa using ht

/-- Mapping a record list with distinct ids into entries keyed by those ids
produces exactly one entry per id. -/
theorem countP_map_id_key {α β : Type} (xs : List α) (idf : α → Nat) (s : α)
    (hnd : (xs.map idf).Nodup) (hs : s ∈ xs)
    (f : α → β) (key : β → Nat) (hf : ∀ x, key (f x) = idf x) :
    (xs.map f).countP (fun e => key e == idf s) = 1 := by
  rw [List.countP_map]
  have heq : ((fun e => key e == idf s) ∘ f) = fun x => idf x == idf s :=
    funext (fun x => by simp [Function.comp, hf])
  rw [heq]
  have h2 : xs.countP (fun x => idf x == idf s) =
      (xs.map idf).countP (fun y => y == idf s) := by
    rw [List.countP_map]
    rfl
  rw [h2, ← List.count_eq_countP]
  exact List.count_eq_one_of_mem hnd (List.mem_map.mpr ⟨s, hs, rfl⟩)

/-- Every status key of the summary group-by comes from a joined lead. -/
theorem summaryRawStatusRows_key {db : DB} {scope : Option (List Nat)}
    {pr : Nat × Nat} (h : pr ∈ summaryRawStatusRows db scope) :
    ∃ p ∈ summaryJoin db scope, p.1.status_id = pr.1 := by
  unfold summaryRawStatusRows at h
  rcases List.mem_map.mp h with ⟨sid, hsid, hpr⟩
  rcases List.mem_map.mp (List.mem_dedup.mp hsid) with ⟨p, hp, hps⟩
  exact ⟨p, hp, by rw [hps, ← hpr]⟩

/-- Every source key of the summary group-by comes from a joined lead. -/
theorem summaryRawSourceRows_key {db : DB} {scope : Option (List Nat)}
    {pr : Option Nat × Nat} (h : pr ∈ summaryRawSourceRows db scope) :
    ∃ p ∈ summaryJoin db scope, p.1.source_id = pr.1 := by
  unfold summaryRawSourceRows at h
  rcases List.mem_map.mp h with ⟨sid, hsid, hpr⟩
  rcases List.mem_map.mp (List.mem_dedup.mp hsid) with ⟨p, hp, hps⟩
  exact ⟨p, hp, by rw [hps, ← hpr]⟩

/-- With `overwrite=false` the core queues exactly the never-assigned found
leads and skips the rest with their reasons. -/
theorem bulkAssignCore_no_overwrite (db : DB) (actorId a : Nat)
    (ids : List Nat) :
    bulkAssignCore db actorId a ⟨ids, some a, false⟩ =
      (.ok 200 { total_requested := ids.length,
                 updated := ((foundLeadIds db ids).filter (fun i =>
                   jsMapGet (getLatestAssignmentsMap db (foundLeadIds db ids)) i
                     == none)).length,
                 skipped := (foundLeadIds db ids).filterMap (fun i =>
                   match jsMapGet
                       (getLatestAssignmentsMap db (foundLeadIds db ids)) i with
                   | none => none
                   | some c =>
                     some (i, if c == a then "already_assigned_to_target"
                              else "already_assigned")),
                 missing := ids.filter
                   (fun i => !((foundLeadIds db ids).contains i)),
                 assignee_id := a, overwrite := false },
       bulkCreateAssignments db actorId a
         ((foundLeadIds db ids).filter (fun i =>
           jsMapGet (getLatestAssignmentsMap db (foundLeadIds db ids)) i
             == none))) := by
  unfold bulkAssignCore
  dsimp only
  rw [partitionAssign_no_overwrite]

/-- Reduction of `updateLead` for a sales_rep actor on an existing lead:
everything hinges on the latest assignee. -/
theorem updateLead_salesrep_reduce (db : DB) (actorId L : Nat)
    (b : UpdateBody) (lead : LeadRec) (hlead : findLead db L = some lead) :
    updateLead db actorId .sales_rep L b =
      if latestAssigneeOf db L ≠ some actorId then
        (.err 403 "Sales rep can only update leads assigned to them", db)
      else
        (.ok 200 (applyUpdate lead b actorId),
         { db with leads := db.leads.map (fun x =>
             if x.id == L then applyUpdate lead b actorId else x) }) := by
  unfold updateLead
  rw [hlead]
  dsimp only
  by_cases h : latestAssigneeOf db L ≠ some actorId
  · rw [if_pos ⟨rfl, h⟩, if_pos h]
  · rw [if_neg (fun hc => h hc.2), if_neg h]

-- ==========================================================================
-- Claim theorems
-- ==========================================================================

/-- C1: immediately after `createLead` the latest (max-id) ledger row of the
new lead names the creator as assignee, and immediately after `assignLead`
completes the latest ledger row of the lead names the requested assignee;
both operations strictly append one row and leave all prior ledger rows
untouched. -/
theorem create_assign_latest_assignee (db : DB) (hwf : db.Wf)
    (actorId actor2 L a : Nat) (b : CreateBody) (sid : Nat)
    (hsid : b.status_id = some sid) (hsid0 : sid ≠ 0)
    (lead : LeadRec) (u : UserRec)
    (hlead : findLead db L = some lead) (huser : findUser db a = some u) :
    (∃ newLead, (createLead db actorId b).1 = .ok 201 newLead ∧
      latestAssigneeOf (createLead db actorId b).2 newLead.id = some actorId ∧
      (createLead db actorId b).2.assignments = db.assignments ++
        [⟨db.nextAssignmentId, db.nextLeadId, actorId, actorId⟩]) ∧
    (∃ row, (assignLead db actor2 L a).1 = .ok 201 row ∧
      latestAssigneeOf (assignLead db actor2 L a).2 L = some a ∧
      (assignLead db actor2 L a).2.assignments = db.assignments ++ [row]) := by
  constructor
  · set newLead : LeadRec :=
      { id := db.nextLeadId, first_name := b.first_name,
        last_name := b.last_name, company := b.company, email := b.email,
        phone := b.phone, country := b.country, status_id := sid,
        source_id := b.source_id, value_decimal := b.value_decimal.getD 0,
        notes := b.notes, created_by := actorId, updated_by := none } with hnew
    set db1 : DB := { db with leads := db.leads ++ [newLead],
                              nextLeadId := db.nextLeadId + 1 } with hdb1
    have hc : createLead db actorId b =
        (.ok 201 newLead,
         (appendAssignment db1 newLead.id actorId actorId).2) := by
      unfold createLead
      rw [hsid]
      dsimp only
      rw [if_neg hsid0]
    have hwf1 : db1.Wf := wf_insertLead db hwf newLead rfl
    have hlat := latest_appendAssignment db1 hwf1 newLead.id actorId actorId
    refine ⟨newLead, by rw [hc], ?_, ?_⟩
    · rw [hc]
      unfold latestAssigneeOf
      rw [hlat.1]
      simp [appendAssignment]
    · rw [hc]
      simp [appendAssignment, hdb1]
  · have hlat := latest_appendAssignment db hwf L a actor2
    have hc : assignLead db actor2 L a =
        (.ok 201 (appendAssignment db L a actor2).1,
         (appendAssignment db L a actor2).2) := by
      unfold assignLead
      rw [hlead, huser]
    refine ⟨(appendAssignment db L a actor2).1, by rw [hc], ?_, ?_⟩
    · rw [hc]
      unfold latestAssigneeOf
      rw [hlat.1]
      simp [appendAssignment]
    · rw [hc]
      simp [appendAssignment]

/-- Witness for C1 on the sample store: sales rep 3 creates a lead and admin
2 reassigns lead 7 to sales rep 3. -/
theorem create_assign_latest_assignee_witness :
    baseDb.Wf ∧
    ((∃ newLead, (createLead baseDb 3 { status_id := some 2 }).1 =
        .ok 201 newLead ∧
      latestAssigneeOf (createLead baseDb 3 { status_id := some 2 }).2
        newLead.id = some 3 ∧
      (createLead baseDb 3 { status_id := some 2 }).2.assignments =
        baseDb.assignments ++ [⟨2, 8, 3, 3⟩]) ∧
    (∃ row, (assignLead baseDb 2 7 3).1 = .ok 201 row ∧
      latestAssigneeOf (assignLead baseDb 2 7 3).2 7 = some 3 ∧
      (assignLead baseDb 2 7 3).2.assignments =
        baseDb.assignments ++ [row])) :=
  ⟨by decide,
    create_assign_latest_assignee baseDb (by decide) 3 2 7 3
      { status_id := some 2 } 2 rfl (by decide) (mkLead 7 1 2) ⟨3, .sales_rep, true⟩
      (by decide) (by decide)⟩

/-- C9 counterexample: `assignLead` performs no eligibility validation.  On
the sample store, sales rep 5 is not in any team managed by manager 1 — so
`bulkAssign` by manager 1 targeting rep 5 fails Forbidden per the role
matrix — yet the single-lead `assignLead` by the same manager for the same
assignee succeeds and appends a ledger row. -/
theorem assignLead_skips_eligibility_cx :
    isRepUnderManager baseDb 1 5 = false ∧
    (bulkAssign baseDb 1 .manager
        { lead_ids := [7], assignee_id := some 5 }).1 =
      .err 403 "Selected sales rep is not in your managed teams." ∧
    (assignLead baseDb 1 7 5).1 = .ok 201 ⟨2, 7, 5, 1⟩ ∧
    (assignLead baseDb 1 7 5).2.assignments =
      baseDb.assignments ++ [⟨2, 7, 5, 1⟩] := by
  decide

/-- C9 (amended): `assignLead` validates only existence — a missing lead or
a missing assignee yields NotFound with the store untouched (no ledger row
written); when both exist it appends exactly one new ledger row, altering
nothing else, with no role-eligibility check of any kind. -/
theorem assignLead_existence_validation (db : DB) (actorId L a : Nat) :
    (findLead db L = none →
      assignLead db actorId L a = (.err 404 "Lead not found", db)) ∧
    (∀ lead, findLead db L = some lead → findUser db a = none →
      assignLead db actorId L a = (.err 404 "Assignee not found", db)) ∧
    (∀ lead u, findLead db L = some lead → findUser db a = some u →
      (assignLead db actorId L a).1 =
        .ok 201 ⟨db.nextAssignmentId, L, a, actorId⟩ ∧
      (assignLead db actorId L a).2.assignments =
        db.assignments ++ [⟨db.nextAssignmentId, L, a, actorId⟩]) := by
  refine ⟨?_, ?_, ?_⟩
  · intro h
    unfold assignLead
    rw [h]
  · intro lead hlead huser
    unfold assignLead
    rw [hlead, huser]
  · intro lead u hlead huser
    have hc : assignLead db actorId L a =
        (.ok 201 (appendAssignment db L a actorId).1,
         (appendAssignment db L a actorId).2) := by
      unfold assignLead
      rw [hlead, huser]
    rw [hc]
    exact ⟨rfl, rfl⟩

/-- Witness for the amended C9 on the sample store. -/
theorem assignLead_existence_validation_witness :
    (assignLead baseDb 2 7 3).1 = .ok 201 ⟨2, 7, 3, 2⟩ ∧
    (assignLead baseDb 2 7 3).2.assignments =
      baseDb.assignments ++ [⟨2, 7, 3, 2⟩] :=
  (assignLead_existence_validation baseDb 2 7 3).2.2 (mkLead 7 1 2)
    ⟨3, .sales_rep, true⟩ (by decide) (by decide)

/-- C5: a sales_rep's `updateLead` on an existing lead succeeds exactly when
the lead's latest (max-id) ledger row names the actor as assignee; otherwise
it fails 403 with the store — in particular the lead record — unchanged.
After the lead is reassigned to the sales rep via `assignLead` (by any
actor), the same update succeeds. -/
theorem updateLead_salesrep_guard (db : DB) (hwf : db.Wf)
    (actorId adminId L : Nat) (b : UpdateBody) (lead : LeadRec) (u : UserRec)
    (hlead : findLead db L = some lead) (hu : findUser db actorId = some u) :
    ((∃ l', (updateLead db actorId .sales_rep L b).1 = .ok 200 l') ↔
      latestAssigneeOf db L = some actorId) ∧
    (latestAssigneeOf db L ≠ some actorId →
      updateLead db actorId .sales_rep L b =
        (.err 403 "Sales rep can only update leads assigned to them", db)) ∧
    (∃ l', (updateLead (assignLead db adminId L actorId).2 actorId
        .sales_rep L b).1 = .ok 200 l') := by
  have hred := updateLead_salesrep_reduce db actorId L b lead hlead
  refine ⟨?_, ?_, ?_⟩
  · constructor
    · rintro ⟨l', hl'⟩
      by_cases h : latestAssigneeOf db L = some actorId
      · exact h
      · rw [hred, if_pos h] at hl'
        simp at hl'
    · intro h
      rw [hred, if_neg (fun hc => hc h)]
      exact ⟨applyUpdate lead b actorId, rfl⟩
  · intro h
    rw [hred, if_pos h]
  · have hassign : assignLead db adminId L actorId =
        (.ok 201 (appendAssignment db L actorId adminId).1,
         (appendAssignment db L actorId adminId).2) := by
      unfold assignLead
      rw [hlead, hu]
    set db' := (appendAssignment db L actorId adminId).2 with hdb'
    have hlat : latestAssigneeOf db' L = some actorId := by
      unfold latestAssigneeOf
      rw [(latest_appendAssignment db hwf L actorId adminId).1]
      simp [appendAssignment]
    have hlead' : findLead db' L = some lead := by
      unfold findLead at hlead ⊢
      simpa [appendAssignment] using hlead
    have hred' := updateLead_salesrep_reduce db' actorId L b lead hlead'
    rw [hassign]
    show ∃ l', (updateLead db' actorId .sales_rep L b).1 = .ok 200 l'
    rw [hred', if_neg (fun hc => hc hlat)]
    exact ⟨applyUpdate lead b actorId, rfl⟩

/-- Witness for C5 on the sample store: sales rep 3 is rejected on lead 7
(currently rep 5's), and succeeds after admin 2 reassigns lead 7 to them. -/
theorem updateLead_salesrep_guard_witness :
    baseDb.Wf ∧
    (updateLead baseDb 3 .sales_rep 7 {} =
      (.err 403 "Sales rep can only update leads assigned to them", baseDb)) ∧
    (∃ l', (updateLead (assignLead baseDb 2 7 3).2 3 .sales_rep 7 {}).1 =
      .ok 200 l') := by
  have h := updateLead_salesrep_guard baseDb (by decide) 3 2 7 {}
    (mkLead 7 1 2) ⟨3, .sales_rep, true⟩ (by decide) (by decide)
  exact ⟨by decide, h.2.1 (by decide), h.2.2⟩

/-- C2 counterexample: the lead listing does not scope managers.  On the
sample store lead 7's latest assignee is sales rep 5, who is not in manager
1's resolved scope (`[1, 3]`), yet the listing for manager 1 with no
filters returns lead 7. -/
theorem getLeads_manager_unscoped_cx :
    latestAssigneeOf baseDb 7 = some 5 ∧
    resolveManagerAssignees baseDb 1 = [1, 3] ∧
    (5 ∈ resolveManagerAssignees baseDb 1 → False) ∧
    (getLeadsMatch baseDb .manager 1 {}).map (fun l => l.id) = [7] := by
  decide

/-- C2 (amended): a sales_rep's match set is exactly the leads (passing the
column filters) whose latest assignment names them; a manager receives no
role-based scoping at all — their match set is identical to an admin's, and
with no explicit assignee filter it is every lead passing the column
filters. -/
theorem getLeads_scope_by_role (db : DB) (hwf : db.Wf) (uid : Nat)
    (q : LeadsQuery) :
    (∀ l, l ∈ getLeadsMatch db .sales_rep uid q ↔
      l ∈ db.leads ∧ leadWhere q l = true ∧
        latestAssigneeOf db l.id = some uid) ∧
    getLeadsMatch db .manager uid q = getLeadsMatch db .admin uid q ∧
    (q.assignee_id = none →
      ∀ l, l ∈ getLeadsMatch db .manager uid q ↔
        l ∈ db.leads ∧ leadWhere q l = true) := by
  refine ⟨?_, rfl, ?_⟩
  · intro l
    unfold getLeadsMatch
    rw [List.mem_filter]
    have hfil : getLeadsAssigneeFilter .sales_rep uid q = some uid := rfl
    rw [hfil]
    constructor
    · rintro ⟨hmem, hcond⟩
      rw [Bool.and_eq_true] at hcond
      exact ⟨hmem, hcond.1, (passesLatestInclude_some hwf uid l).mp hcond.2⟩
    · rintro ⟨hmem, hw, hlat⟩
      exact ⟨hmem, by
        rw [Bool.and_eq_true]
        exact ⟨hw, (passesLatestInclude_some hwf uid l).mpr hlat⟩⟩
  · intro hq l
    unfold getLeadsMatch
    rw [List.mem_filter]
    have hfil : getLeadsAssigneeFilter .manager uid q = none := by
      unfold getLeadsAssigneeFilter
      rw [if_neg (by simp)]
      exact hq
    rw [hfil]
    have hpass : passesLatestInclude db none l = true := rfl
    rw [hpass]
    simp

/-- Witness for the amended C2 on the sample store. -/
theorem getLeads_scope_by_role_witness :
    baseDb.Wf ∧
    (mkLead 7 1 2 ∈ getLeadsMatch baseDb .sales_rep 5 {} ↔
      mkLead 7 1 2 ∈ baseDb.leads ∧ leadWhere {} (mkLead 7 1 2) = true ∧
        latestAssigneeOf baseDb 7 = some 5) ∧
    getLeadsMatch baseDb .manager 1 {} = getLeadsMatch baseDb .admin 1 {} := by
  have h := getLeads_scope_by_role baseDb (by decide) 5 {}
  have h2 := getLeads_scope_by_role baseDb (by decide) 1 {}
  exact ⟨by decide, h.1 (mkLead 7 1 2), h2.2.1⟩

/-- C3: once the request validations pass (non-empty `lead_ids`, present
non-zero `assignee_id` that names an existing user), `bulkAssign` enforces
the role matrix: an admin is rejected with 403 unless the assignee is a
manager (and reaches a 200 success otherwise); a manager is rejected with
403 unless the assignee is a sales_rep who belongs to one of the teams the
manager manages (succeeding with 200 when both hold); a sales_rep actor is
always rejected with 403 regardless of the target. -/
theorem bulkAssign_role_matrix (db : DB) (actorId : Nat) (b : BulkBody)
    (a : Nat) (u : UserRec)
    (hids : b.lead_ids ≠ [])
    (ha : b.assignee_id = some a) (ha0 : a ≠ 0)
    (hu : findUser db a = some u) :
    ((u.role ≠ .manager →
        bulkAssign db actorId .admin b =
          (.err 403 "Admin can only bulk-assign to managers.", db)) ∧
     (u.role = .manager →
        ∃ r, (bulkAssign db actorId .admin b).1 = .ok 200 r)) ∧
    ((u.role ≠ .sales_rep →
        bulkAssign db actorId .manager b =
          (.err 403 "Manager can only bulk-assign to sales reps.", db)) ∧
     (u.role = .sales_rep → isRepUnderManager db actorId a = false →
        bulkAssign db actorId .manager b =
          (.err 403 "Selected sales rep is not in your managed teams.", db)) ∧
     (u.role = .sales_rep → isRepUnderManager db actorId a = true →
        ∃ r, (bulkAssign db actorId .manager b).1 = .ok 200 r)) ∧
    bulkAssign db actorId .sales_rep b = (.err 403 "Forbidden.", db) := by
  refine ⟨⟨?_, ?_⟩, ⟨?_, ?_, ?_⟩, ?_⟩
  · intro h
    rw [bulkAssign_gate db actorId .admin b a u hids ha ha0 hu]
    show (if u.role != .manager then _ else _) = _
    rw [if_pos (by simpa using h)]
  · intro h
    rw [bulkAssign_eq_core db actorId .admin b a u hids ha ha0 hu
      (Or.inl ⟨rfl, h⟩)]
    unfold bulkAssignCore
    exact ⟨_, rfl⟩
  · intro h
    rw [bulkAssign_gate db actorId .manager b a u hids ha ha0 hu]
    show (if u.role != .sales_rep then _ else _) = _
    rw [if_pos (by simpa using h)]
  · intro h hrep
    rw [bulkAssign_gate db actorId .manager b a u hids ha ha0 hu]
    show (if u.role != .sales_rep then _ else _) = _
    rw [if_neg (by simp [h]), if_pos (by simp [hrep])]
  · intro h hrep
    rw [bulkAssign_eq_core db actorId .manager b a u hids ha ha0 hu
      (Or.inr ⟨rfl, h, hrep⟩)]
    unfold bulkAssignCore
    exact ⟨_, rfl⟩
  · rw [bulkAssign_gate db actorId .sales_rep b a u hids ha ha0 hu]

/-- Witness for C3 on the sample store: admin 2 targeting sales_rep 5 is
Forbidden; manager 1 targeting rep 3 (member of their team 4) succeeds;
sales rep 5 as actor is Forbidden. -/
theorem bulkAssign_role_matrix_witness :
    (bulkAssign baseDb 2 .admin { lead_ids := [7], assignee_id := some 5 } =
      (.err 403 "Admin can only bulk-assign to managers.", baseDb)) ∧
    (∃ r, (bulkAssign baseDb 1 .manager
        { lead_ids := [7], assignee_id := some 3 }).1 = .ok 200 r) ∧
    (bulkAssign baseDb 5 .sales_rep
        { lead_ids := [7], assignee_id := some 6 } =
      (.err 403 "Forbidden.", baseDb)) := by
  have h5 := bulkAssign_role_matrix baseDb 2
    { lead_ids := [7], assignee_id := some 5 } 5 ⟨5, .sales_rep, true⟩
    (by decide) rfl (by decide) (by decide)
  have h3 := bulkAssign_role_matrix baseDb 1
    { lead_ids := [7], assignee_id := some 3 } 3 ⟨3, .sales_rep, true⟩
    (by decide) rfl (by decide) (by decide)
  have h6 := bulkAssign_role_matrix baseDb 5
    { lead_ids := [7], assignee_id := some 6 } 6 ⟨6, .manager, true⟩
    (by decide) rfl (by decide) (by decide)
  exact ⟨h5.1.1 (by decide), h3.2.1.2.2 rfl (by decide), h6.2.2⟩

/-- C10: `bulkAssign` with `overwrite=true` by an actor/assignee pair the
role matrix admits appends exactly one new ledger row for every requested
lead id that exists — including leads whose latest assignee already equals
the target, since nothing can be skipped — while requested ids with no lead
record appear in the `missing` list and receive no ledger row; prior ledger
rows survive as a prefix. -/
theorem bulkAssign_overwrite_appends (db : DB) (hwf : db.Wf)
    (actorId : Nat) (actorRole : Role) (ids : List Nat) (a : Nat)
    (u : UserRec)
    (hids : ids ≠ []) (ha0 : a ≠ 0) (hu : findUser db a = some u)
    (hauth : (actorRole = .admin ∧ u.role = .manager) ∨
      (actorRole = .manager ∧ u.role = .sales_rep ∧
        isRepUnderManager db actorId a = true)) :
    (bulkAssign db actorId actorRole ⟨ids, some a, true⟩).1 =
      .ok 200 { total_requested := ids.length,
                updated := (foundLeadIds db ids).length,
                skipped := [],
                missing := ids.filter
                  (fun i => !(db.leads.any (fun l => l.id == i))),
                assignee_id := a, overwrite := true } ∧
    (∃ rows, (bulkAssign db actorId actorRole ⟨ids, some a, true⟩).2.assignments =
      db.assignments ++ rows) ∧
    (∀ L ∈ ids, (∃ l ∈ db.leads, l.id = L) →
      countRowsOf (bulkAssign db actorId actorRole ⟨ids, some a, true⟩).2 L =
        countRowsOf db L + 1) ∧
    (∀ L, (¬∃ l ∈ db.leads, l.id = L) →
      countRowsOf (bulkAssign db actorId actorRole ⟨ids, some a, true⟩).2 L =
        countRowsOf db L) := by
  rw [bulkAssign_eq_core db actorId actorRole ⟨ids, some a, true⟩ a u
    hids rfl ha0 hu hauth]
  rw [bulkAssignCore_overwrite]
  have hnd := foundLeadIds_nodup hwf ids
  refine ⟨?_, ?_, ?_, ?_⟩
  · have hmiss : ids.filter (fun i => !((foundLeadIds db ids).contains i)) =
        ids.filter (fun i => !(db.leads.any (fun l => l.id == i))) := by
      apply List.filter_congr
      intro i hi
      by_cases hfound : i ∈ foundLeadIds db ids
      · have hex := (mem_foundLeadIds.mp hfound).2
        rcases hex with ⟨l, hl, hid⟩
        have : db.leads.any (fun l => l.id == i) = true :=
          List.any_eq_true.mpr ⟨l, hl, by simp [hid]⟩
        simp [hfound, this]
      · have : db.leads.any (fun l => l.id == i) = false := by
          rw [Bool.eq_false_iff]
          intro hany
          rcases List.any_eq_true.mp hany with ⟨l, hl, hid⟩
          exact hfound (mem_foundLeadIds.mpr ⟨hi, l, hl, by simpa using hid⟩)
        simp [hfound, this]
    rw [hmiss]
  · exact bulkCreate_append db actorId a _
  · intro L hL hex
    rw [bulkCreate_count]
    have hmem : L ∈ foundLeadIds db ids := mem_foundLeadIds.mpr ⟨hL, hex⟩
    rw [List.count_eq_one_of_mem hnd hmem]
  · intro L hex
    rw [bulkCreate_count]
    have hmem : L ∉ foundLeadIds db ids := by
      intro hmem
      exact hex (mem_foundLeadIds.mp hmem).2
    rw [List.count_eq_zero_of_not_mem hmem]
    omega

/-- C4 counterexample: on the sample store lead 7's latest assignee is rep
5, so an admin bulk-assigning it to manager 6 with `overwrite=false` skips
it on BOTH runs with reason "already_assigned" — not
"already_assigned_to_target" as the claim states.  The second run does
append zero rows (the store is unchanged), but the reported reason differs
from the claimed one. -/
theorem bulkAssign_idem_reason_cx :
    (bulkAssign baseDb 2 .admin ⟨[7], some 6, false⟩).2 = baseDb ∧
    (bulkAssign (bulkAssign baseDb 2 .admin ⟨[7], some 6, false⟩).2
        2 .admin ⟨[7], some 6, false⟩).1 =
      .ok 200 { total_requested := 1, updated := 0,
                skipped := [(7, "already_assigned")], missing := [],
                assignee_id := 6, overwrite := false } ∧
    "already_assigned" ≠ "already_assigned_to_target" := by
  decide

/-- C4 (amended): re-running `bulkAssign` with identical arguments and
`overwrite=false` appends zero new ledger rows and leaves the store exactly
as after the first run; the second run reports every found lead as skipped,
with reason "already_assigned_to_target" for leads whose latest assignee
equals the target and "already_assigned" for leads currently assigned to
someone else. -/
theorem bulkAssign_idempotent_no_overwrite (db : DB) (hwf : db.Wf)
    (actorId : Nat) (actorRole : Role) (ids : List Nat) (a : Nat)
    (u : UserRec)
    (hids : ids ≠ []) (ha0 : a ≠ 0) (hu : findUser db a = some u)
    (hauth : (actorRole = .admin ∧ u.role = .manager) ∨
      (actorRole = .manager ∧ u.role = .sales_rep ∧
        isRepUnderManager db actorId a = true)) :
    (bulkAssign (bulkAssign db actorId actorRole ⟨ids, some a, false⟩).2
        actorId actorRole ⟨ids, some a, false⟩).2 =
      (bulkAssign db actorId actorRole ⟨ids, some a, false⟩).2 ∧
    (bulkAssign (bulkAssign db actorId actorRole ⟨ids, some a, false⟩).2
        actorId actorRole ⟨ids, some a, false⟩).1 =
      .ok 200 { total_requested := ids.length, updated := 0,
                skipped := (foundLeadIds db ids).map (fun i =>
                  (i, if latestAssigneeOf
                        (bulkAssign db actorId actorRole
                          ⟨ids, some a, false⟩).2 i == some a
                      then "already_assigned_to_target"
                      else "already_assigned")),
                missing := ids.filter
                  (fun i => !((foundLeadIds db ids).contains i)),
                assignee_id := a, overwrite := false } := by
  have hrun1 : bulkAssign db actorId actorRole ⟨ids, some a, false⟩ =
      bulkAssignCore db actorId a ⟨ids, some a, false⟩ :=
    bulkAssign_eq_core db actorId actorRole _ a u hids rfl ha0 hu hauth
  have hgetmap : ∀ i ∈ foundLeadIds db ids,
      jsMapGet (getLatestAssignmentsMap db (foundLeadIds db ids)) i =
        latestAssigneeOf db i :=
    fun i hi => getLatestAssignmentsMap_lookup hwf hi
  have htc1 : (foundLeadIds db ids).filter (fun i =>
        jsMapGet (getLatestAssignmentsMap db (foundLeadIds db ids)) i == none) =
      (foundLeadIds db ids).filter (fun i => latestAssigneeOf db i == none) :=
    List.filter_congr (fun i hi => by rw [hgetmap i hi])
  have hdb1 : (bulkAssign db actorId actorRole ⟨ids, some a, false⟩).2 =
      bulkCreateAssignments db actorId a
        ((foundLeadIds db ids).filter (fun i =>
          latestAssigneeOf db i == none)) := by
    rw [hrun1, bulkAssignCore_no_overwrite]
    dsimp only
    rw [htc1]
  have hwf1 : (bulkCreateAssignments db actorId a
      ((foundLeadIds db ids).filter (fun i =>
        latestAssigneeOf db i == none))).Wf :=
    wf_bulkCreate db hwf actorId a _
  have hfields := bulkCreate_fields db actorId a
    ((foundLeadIds db ids).filter (fun i => latestAssigneeOf db i == none))
  have htc1nd : ((foundLeadIds db ids).filter (fun i =>
      latestAssigneeOf db i == none)).Nodup :=
    (foundLeadIds_nodup hwf ids).filter _
  have hlatest := bulkCreate_latest db hwf actorId a
    ((foundLeadIds db ids).filter (fun i => latestAssigneeOf db i == none))
    htc1nd
  have hsome : ∀ i ∈ foundLeadIds db ids, ∃ c,
      latestAssigneeOf (bulkCreateAssignments db actorId a
        ((foundLeadIds db ids).filter (fun i =>
          latestAssigneeOf db i == none))) i = some c := by
    intro i hi
    by_cases hin : i ∈ (foundLeadIds db ids).filter (fun i =>
      latestAssigneeOf db i == none)
    · exact ⟨a, hlatest.1 i hin⟩
    · have hne : latestAssigneeOf db i ≠ none := by
        intro hnone
        exact hin (List.mem_filter.mpr ⟨hi, by simp [hnone]⟩)
      rcases Option.ne_none_iff_exists'.mp hne with ⟨c, hc⟩
      exact ⟨c, by rw [hlatest.2 i hin]; exact hc⟩
  have hfound1 : foundLeadIds (bulkCreateAssignments db actorId a
      ((foundLeadIds db ids).filter (fun i =>
        latestAssigneeOf db i == none))) ids = foundLeadIds db ids :=
    foundLeadIds_eq_of_leads_eq hfields.2.1 ids
  have hu1 : findUser (bulkCreateAssignments db actorId a
      ((foundLeadIds db ids).filter (fun i =>
        latestAssigneeOf db i == none))) a = some u := by
    unfold findUser
    rw [hfields.1]
    exact hu
  have hauth1 : (actorRole = .admin ∧ u.role = .manager) ∨
      (actorRole = .manager ∧ u.role = .sales_rep ∧
        isRepUnderManager (bulkCreateAssignments db actorId a
          ((foundLeadIds db ids).filter (fun i =>
            latestAssigneeOf db i == none))) actorId a = true) := by
    rcases hauth with h | ⟨h1, h2, h3⟩
    · exact Or.inl h
    · refine Or.inr ⟨h1, h2, ?_⟩
      unfold isRepUnderManager
      rw [hfields.2.2.1, hfields.2.2.2]
      exact h3
  have hrun2 := bulkAssign_eq_core (bulkCreateAssignments db actorId a
      ((foundLeadIds db ids).filter (fun i =>
        latestAssigneeOf db i == none))) actorId actorRole
    ⟨ids, some a, false⟩ a u hids rfl ha0 hu1 hauth1
  have hgetmap1 : ∀ i ∈ foundLeadIds db ids,
      jsMapGet (getLatestAssignmentsMap (bulkCreateAssignments db actorId a
          ((foundLeadIds db ids).filter (fun i =>
            latestAssigneeOf db i == none))) (foundLeadIds db ids)) i =
        latestAssigneeOf (bulkCreateAssignments db actorId a
          ((foundLeadIds db ids).filter (fun i =>
            latestAssigneeOf db i == none))) i :=
    fun i hi => getLatestAssignmentsMap_lookup hwf1 hi
  have htc2 : (foundLeadIds db ids).filter (fun i =>
      jsMapGet (getLatestAssignmentsMap (bulkCreateAssignments db actorId a
          ((foundLeadIds db ids).filter (fun i =>
            latestAssigneeOf db i == none))) (foundLeadIds db ids)) i
        == none) = [] := by
    rw [List.filter_eq_nil_iff]
    intro i hi hcond
    rcases hsome i hi with ⟨c, hc⟩
    rw [hgetmap1 i hi, hc] at hcond
    simp at hcond
  have hskip2 : (foundLeadIds db ids).filterMap (fun i =>
      match jsMapGet (getLatestAssignmentsMap (bulkCreateAssignments db actorId a
          ((foundLeadIds db ids).filter (fun i =>
            latestAssigneeOf db i == none))) (foundLeadIds db ids)) i with
      | none => none
      | some c => some (i, if c == a then "already_assigned_to_target"
                           else "already_assigned")) =
      (foundLeadIds db ids).map (fun i =>
        (i, if latestAssigneeOf (bulkCreateAssignments db actorId a
              ((foundLeadIds db ids).filter (fun i =>
                latestAssigneeOf db i == none))) i == some a
            then "already_assigned_to_target" else "already_assigned")) := by
    apply filterMap_eq_map_of_forall
    intro i hi
    rcases hsome i hi with ⟨c, hc⟩
    rw [hgetmap1 i hi, hc]
    by_cases hca : c = a
    · subst hca
      simp
    · simp [hca]
  constructor
  · rw [hdb1, hrun2, bulkAssignCore_no_overwrite]
    dsimp only
    rw [hfound1, htc2]
    rfl
  · rw [hdb1, hrun2, bulkAssignCore_no_overwrite]
    dsimp only
    rw [hfound1, htc2, hskip2]
    rfl

/-- Witness for the amended C4 on the sample store: the second identical
bulk-assign of lead 7 to manager 6 by admin 2 changes nothing and skips
lead 7 with reason "already_assigned". -/
theorem bulkAssign_idempotent_no_overwrite_witness :
    (bulkAssign (bulkAssign baseDb 2 .admin ⟨[7], some 6, false⟩).2
        2 .admin ⟨[7], some 6, false⟩).2 =
      (bulkAssign baseDb 2 .admin ⟨[7], some 6, false⟩).2 ∧
    (bulkAssign (bulkAssign baseDb 2 .admin ⟨[7], some 6, false⟩).2
        2 .admin ⟨[7], some 6, false⟩).1 =
      .ok 200 { total_requested := 1, updated := 0,
                skipped := (foundLeadIds baseDb [7]).map (fun i =>
                  (i, if latestAssigneeOf
                        (bulkAssign baseDb 2 .admin
                          ⟨[7], some 6, false⟩).2 i == some 6
                      then "already_assigned_to_target"
                      else "already_assigned")),
                missing := [7].filter
                  (fun i => !((foundLeadIds baseDb [7]).contains i)),
                assignee_id := 6, overwrite := false } :=
  bulkAssign_idempotent_no_overwrite baseDb (by decide) 2 .admin [7] 6
    ⟨6, .manager, true⟩ (by decide) (by decide) (by decide)
    (Or.inl ⟨rfl, rfl⟩)

/-- Witness for C10 on the sample store: admin 2 bulk-assigns leads [7, 99]
to manager 6 with overwrite — lead 7 (which exists, already assigned) gets
exactly one new row, id 99 is reported missing and gets none. -/
theorem bulkAssign_overwrite_appends_witness :
    (bulkAssign baseDb 2 .admin ⟨[7, 99], some 6, true⟩).1 =
      .ok 200 { total_requested := 2, updated := 1, skipped := [],
                missing := [99], assignee_id := 6, overwrite := true } ∧
    countRowsOf (bulkAssign baseDb 2 .admin ⟨[7, 99], some 6, true⟩).2 7 =
      countRowsOf baseDb 7 + 1 ∧
    countRowsOf (bulkAssign baseDb 2 .admin ⟨[7, 99], some 6, true⟩).2 99 =
      countRowsOf baseDb 99 := by
  have h := bulkAssign_overwrite_appends baseDb (by decide) 2 .admin
    [7, 99] 6 ⟨6, .manager, true⟩ (by decide) (by decide) (by decide)
    (Or.inl ⟨rfl, rfl⟩)
  refine ⟨?_, h.2.2.1 7 (by decide) ⟨mkLead 7 1 2, by decide, rfl⟩,
    h.2.2.2 99 (by decide)⟩
  have h1 := h.1
  rw [h1]
  decide

/-- C6: `resolveManagerAssignees(M)` equals `{M} ∪ {members of teams M
manages}`, de-duplicated, and is recomputed from the `TeamManager` /
`TeamMember` tables on every call (it is a pure function of the current
tables).  A sales rep who is a member of a team managed by M appears in the
scope; after `removeMemberFromTeam` deletes that membership row — the rep's
only membership in any M-managed team — the rep is absent from the very
next resolution. -/
theorem manager_scope_closure (db : DB) (M T u0 : Nat)
    (hman : (⟨M, T⟩ : TeamManagerRow) ∈ db.teamManagers)
    (hmem : (⟨T, u0⟩ : TeamMemberRow) ∈ db.teamMembers)
    (hnd : db.teamMembers.Nodup)
    (hu0 : u0 ≠ M)
    (honly : ∀ T2, (⟨M, T2⟩ : TeamManagerRow) ∈ db.teamManagers →
      (⟨T2, u0⟩ : TeamMemberRow) ∈ db.teamMembers → T2 = T) :
    (∀ v, v ∈ resolveManagerAssignees db M ↔
      (v = M ∨ ∃ t, (⟨M, t⟩ : TeamManagerRow) ∈ db.teamManagers ∧
        (⟨t, v⟩ : TeamMemberRow) ∈ db.teamMembers)) ∧
    (resolveManagerAssignees db M).Nodup ∧
    u0 ∈ resolveManagerAssignees db M ∧
    u0 ∉ resolveManagerAssignees (removeMemberFromTeam db T u0).2 M := by
  refine ⟨fun v => mem_resolveManagerAssignees db M v, ?_, ?_, ?_⟩
  · unfold resolveManagerAssignees
    by_cases hemp : ((db.teamManagers.filter
        (fun r => r.managerId == M)).map (fun r => r.teamId)).isEmpty
    · rw [if_pos hemp]
      exact List.nodup_singleton M
    · rw [if_neg hemp]
      exact (jsSetDedup_spec _).1
  · exact (mem_resolveManagerAssignees db M u0).mpr (Or.inr ⟨T, hman, hmem⟩)
  · have hrm : (removeMemberFromTeam db T u0).2 =
        { db with
            teamMembers := db.teamMembers.eraseP
              (fun r => r.teamId == T && r.userId == u0) } := by
      unfold removeMemberFromTeam
      cases hf : db.teamMembers.find?
          (fun r => r.teamId == T && r.userId == u0) with
      | none =>
        exfalso
        have := List.find?_eq_none.mp hf ⟨T, u0⟩ hmem
        simp at this
      | some x => rfl
    rw [hrm]
    intro hcontra
    rcases (mem_resolveManagerAssignees _ M u0).mp hcontra with h | ⟨t, hman2, hmem2⟩
    · exact hu0 h
    · have hsub : (⟨t, u0⟩ : TeamMemberRow) ∈ db.teamMembers :=
        (List.eraseP_sublist _).subset hmem2
      have ht : t = T := honly t hman2 hsub
      subst ht
      have hout : (⟨t, u0⟩ : TeamMemberRow) ∉ db.teamMembers.eraseP
          (fun r => r.teamId == t && r.userId == u0) :=
        not_mem_eraseP_of_unique hnd (fun x => by
          obtain ⟨xt, xu⟩ := x
          simp [TeamMemberRow.mk.injEq])
      exact hout hmem2

/-- Witness for C6 on the sample store: sales rep 3 is in manager 1's scope
via team 4 and disappears from it after the membership row is removed. -/
theorem manager_scope_closure_witness :
    3 ∈ resolveManagerAssignees baseDb 1 ∧
    3 ∉ resolveManagerAssignees (removeMemberFromTeam baseDb 4 3).2 1 := by
  have h := manager_scope_closure baseDb 1 4 3 (by decide) (by decide)
    (by decide) (by decide)
    (by
      intro T2 hT2 h2
      have := List.mem_singleton.mp hT2
      simp [TeamManagerRow.mk.injEq] at this
      exact this)
  exact ⟨h.2.2.1, h.2.2.2⟩

/-- C7: for every role, query filter and assignee scope, the distinct count
returned by the lead listing and the dashboard total never exceeds the
number of distinct lead ids in the base table, no matter how many ledger
rows each lead joins against. -/
theorem lead_counts_distinct_bound (db : DB) (role : Role) (uid : Nat)
    (q : LeadsQuery) (scope : Option (List Nat)) :
    getLeadsCount db role uid q ≤ distinctLeadIdCount db ∧
    buildSummaryTotalLeads db scope ≤ distinctLeadIdCount db := by
  constructor
  · unfold getLeadsCount distinctLeadIdCount
    apply dedup_length_mono
    intro x hx
    rcases List.mem_map.mp hx with ⟨p, hp, hpx⟩
    have hbase : p.1 ∈ db.leads.filter (leadWhere q) := joinRows_fst_mem hp
    exact List.mem_map.mpr ⟨p.1, (List.mem_filter.mp hbase).1, hpx⟩
  · unfold buildSummaryTotalLeads summaryJoin distinctLeadIdCount
    apply dedup_length_mono
    intro x hx
    rcases List.mem_map.mp hx with ⟨p, hp, hpx⟩
    exact List.mem_map.mpr ⟨p.1, joinRows_fst_mem hp, hpx⟩

/-- C8: dashboard breakdowns are zero-filled.  For every row of the status
(resp. source) reference table, both `buildSummary`'s normalized breakdowns
(any scope, hence every role served by it) and `getSalesRepSummary`'s
`byStatus`/`bySource` contain exactly one entry for that row, and that entry
carries count 0 whenever no in-scope lead has the value; no known category
is ever omitted. -/
theorem breakdowns_zero_filled (db : DB) (scope : Option (List Nat))
    (uid : Nat)
    (hstat : (db.statuses.map (fun s => s.id)).Nodup)
    (hsrc : (db.sources.map (fun s => s.id)).Nodup) :
    (∀ s ∈ db.statuses,
      (leadsByStatus db scope).countP (fun e => e.status_id == s.id) = 1 ∧
      ((∀ p ∈ summaryJoin db scope, p.1.status_id ≠ s.id) →
        ({ status_id := s.id, count := 0, meta := s } : StatusBreakdownEntry)
          ∈ leadsByStatus db scope)) ∧
    (∀ s ∈ db.sources,
      (leadsBySource db scope).countP (fun e => e.source_id == s.id) = 1 ∧
      ((∀ p ∈ summaryJoin db scope, p.1.source_id ≠ some s.id) →
        ({ source_id := s.id, count := 0, meta := s } : SourceBreakdownEntry)
          ∈ leadsBySource db scope)) ∧
    (∀ s ∈ db.statuses,
      (salesRepByStatus db uid).countP (fun e => e.status_id == s.id) = 1 ∧
      ((∀ l ∈ salesRepScopedLeads db uid, l.status_id ≠ s.id) →
        ({ status_id := s.id, count := 0, meta := s } : StatusBreakdownEntry)
          ∈ salesRepByStatus db uid)) ∧
    (∀ s ∈ db.sources,
      (salesRepBySource db uid).countP (fun e => e.source_id == s.id) = 1 ∧
      ((∀ l ∈ salesRepScopedLeads db uid, l.source_id ≠ some s.id) →
        ({ source_id := s.id, count := 0, meta := s } : SourceBreakdownEntry)
          ∈ salesRepBySource db uid)) := by
  refine ⟨?_, ?_, ?_, ?_⟩
  · intro s hs
    constructor
    · exact countP_map_id_key db.statuses (fun x => x.id) s hstat hs
        (fun t =>
          ({ status_id := t.id,
             count := (jsMapGet (summaryRawStatusRows db scope) t.id).getD 0,
             meta := t } : StatusBreakdownEntry))
        (fun e => e.status_id) (fun x => rfl)
    · intro hnolead
      have hnone : jsMapGet (summaryRawStatusRows db scope) s.id = none := by
        apply jsMapGet_eq_none
        intro p hp
        rcases summaryRawStatusRows_key hp with ⟨pj, hpj, hkey⟩
        have := hnolead pj hpj
        rw [hkey] at this
        simpa using this
      refine List.mem_map.mpr ⟨s, hs, ?_⟩
      rw [hnone]
      rfl
  · intro s hs
    constructor
    · exact countP_map_id_key db.sources (fun x => x.id) s hsrc hs
        (fun t =>
          ({ source_id := t.id,
             count := (jsMapGet (summaryRawSourceRows db scope)
               (some t.id)).getD 0,
             meta := t } : SourceBreakdownEntry))
        (fun e => e.source_id) (fun x => rfl)
    · intro hnolead
      have hnone : jsMapGet (summaryRawSourceRows db scope) (some s.id) =
          none := by
        apply jsMapGet_eq_none
        intro p hp
        rcases summaryRawSourceRows_key hp with ⟨pj, hpj, hkey⟩
        have := hnolead pj hpj
        rw [hkey] at this
        simpa using this
      refine List.mem_map.mpr ⟨s, hs, ?_⟩
      rw [hnone]
      rfl
  · intro s hs
    constructor
    · exact countP_map_id_key db.statuses (fun x => x.id) s hstat hs
        (fun t =>
          ({ status_id := t.id,
             count := (jsMapGet (groupCountsBy
               ((salesRepScopedLeads db uid).map (fun l => l.status_id)))
               t.id).getD 0,
             meta := t } : StatusBreakdownEntry))
        (fun e => e.status_id) (fun x => rfl)
    · intro hnolead
      have hnone : jsMapGet (groupCountsBy
          ((salesRepScopedLeads db uid).map (fun l => l.status_id))) s.id =
          none := by
        apply jsMapGet_eq_none
        intro p hp
        have hkey := groupCountsBy_keys hp
        rcases List.mem_map.mp hkey with ⟨l, hl, hls⟩
        have := hnolead l hl
        rw [hls] at this
        simpa using this
      refine List.mem_map.mpr ⟨s, hs, ?_⟩
      unfold salesRepByStatus at *
      rw [hnone]
      rfl
  · intro s hs
    constructor
    · exact countP_map_id_key db.sources (fun x => x.id) s hsrc hs
        (fun t =>
          ({ source_id := t.id,
             count := (jsMapGet ((groupCountsBy
               ((salesRepScopedLeads db uid).map (fun l => l.source_id))).filter
                 (fun p => p.1.isSome)) (some t.id)).getD 0,
             meta := t } : SourceBreakdownEntry))
        (fun e => e.source_id) (fun x => rfl)
    · intro hnolead
      have hnone : jsMapGet ((groupCountsBy
          ((salesRepScopedLeads db uid).map (fun l => l.source_id))).filter
            (fun p => p.1.isSome)) (some s.id) = none := by
        apply jsMapGet_eq_none
        intro p hp
        have hkey := groupCountsBy_keys (List.mem_filter.mp hp).1
        rcases List.mem_map.mp hkey with ⟨l, hl, hls⟩
        have := hnolead l hl
        rw [hls] at this
        simpa using this
      refine List.mem_map.mpr ⟨s, hs, ?_⟩
      unfold salesRepBySource at *
      rw [hnone]
      rfl

/-- Witness for C8 on the sample store: sales rep 3 has no in-scope leads,
so the "won" status appears in their breakdown with count 0, and the
admin-scope breakdown keeps exactly one entry for it. -/
theorem breakdowns_zero_filled_witness :
    ({ status_id := 2, count := 0, meta := ⟨2, "won", "Won"⟩ } :
      StatusBreakdownEntry) ∈ salesRepByStatus baseDb 3 ∧
    (leadsByStatus baseDb none).countP (fun e => e.status_id == 2) = 1 := by
  have h := breakdowns_zero_filled baseDb none 3 (by decide) (by decide)
  exact ⟨(h.2.2.1 ⟨2, "won", "Won"⟩ (by decide)).2 (by decide),
    (h.1 ⟨2, "won", "Won"⟩ (by decide)).1⟩

end LeadHive
